import Mathlib

/-!
# Circular buffer: index management of `circular_buffer.c`

A shallow embedding of the byte ring buffer of `circular_buffer.c` and of the
driver loops of `cicular_buffer_example.c`.

* `size_t` values are natural numbers; every `size_t` addition and subtraction
  of the source is reduced modulo `SIZE_T_MOD` (a 64-bit `size_t`).
* `cb->buffer` is `none` for `NULL` and `some blk` for a block of `blk.length`
  elements.
* Behaviour that C leaves undefined is a `Fault`: a remainder modulo zero, an
  access outside the block, an access through `NULL`.
* The out-parameter `*data` of `Get` and `Peek` is passed in and handed back,
  so that "not written" is visible.
* `CircularBuffer_Put_writes`, `CircularBuffer_Get_writes` and
  `CircularBuffer_Peek_writes` are the same three functions, which in addition
  return the targets of the assignments they execute, in order.
* Loops of the callers that need not terminate on every state take a bound on
  their iterations.
-/

namespace Ring

/-- The element type `BUFFER_TYPE`, by default `uint8_t`. -/
abbrev BUFFER_TYPE := Fin 256

/-- Number of values of the type `size_t` (64 bits). -/
def SIZE_T_MOD : Nat := 2 ^ 64

/-- Status code `BUFFER_OK`. -/
def BUFFER_OK : Int := 0
/-- Status code `BUFFER_FULL`. -/
def BUFFER_FULL : Int := 1
/-- Status code `BUFFER_EMPTY`. -/
def BUFFER_EMPTY : Int := 2
/-- Status code `BUFFER_ERROR`. -/
def BUFFER_ERROR : Int := 3

/-- Undefined behaviour the source can run into. -/
inductive Fault where
  | nullDeref
  | outOfBounds
  | divByZero
deriving DecidableEq, Repr

/-- The struct `CircularBuffer`. -/
structure CircularBuffer where
  buffer : Option (List BUFFER_TYPE)
  head : Nat
  tail : Nat
  size : Nat
  overwrite : Bool
deriving DecidableEq, Repr

/-- Addition of two `size_t` values. -/
def addSz (a b : Nat) : Nat := (a + b) % SIZE_T_MOD

/-- Subtraction of two `size_t` values (wraps around below zero). -/
def subSz (a b : Nat) : Nat := (a % SIZE_T_MOD + (SIZE_T_MOD - b % SIZE_T_MOD)) % SIZE_T_MOD

/-- Multiplication of two `size_t` values. -/
def mulSz (a b : Nat) : Nat := (a * b) % SIZE_T_MOD

/-- The remainder `a % b` of C: undefined for `b = 0`. -/
def modSz (a b : Nat) : Except Fault Nat :=
  if b = 0 then .error .divByZero else .ok (a % b)

/-- The read `p[i]`. -/
def readSlot (p : Option (List BUFFER_TYPE)) (i : Nat) : Except Fault BUFFER_TYPE :=
  match p with
  | none => .error .nullDeref
  | some blk =>
    match blk[i]? with
    | none => .error .outOfBounds
    | some v => .ok v

/-- The write `p[i] = v`. -/
def writeSlot (p : Option (List BUFFER_TYPE)) (i : Nat) (v : BUFFER_TYPE) :
    Except Fault (Option (List BUFFER_TYPE)) :=
  match p with
  | none => .error .nullDeref
  | some blk => if i < blk.length then .ok (some (blk.set i v)) else .error .outOfBounds

/-- `CircularBuffer_Init`; `malloc n` is the outcome of the allocation of `n`
bytes (`none` for `NULL`), `sizeof(BUFFER_TYPE)` is 1. -/
def CircularBuffer_Init (malloc : Nat → Option (List BUFFER_TYPE)) (cb : CircularBuffer)
    (size : Nat) (overwrite : Bool) : Int × CircularBuffer :=
  let cb1 := { cb with buffer := malloc (mulSz size 1) }
  if cb1.buffer = none then (BUFFER_ERROR, cb1)
  else (BUFFER_OK, { cb1 with head := 0, tail := 0, size := size, overwrite := overwrite })

/-- `CircularBuffer_Free`. -/
def CircularBuffer_Free (cb : CircularBuffer) : CircularBuffer :=
  { cb with buffer := none }

/-- Lines 35-37 of `CircularBuffer_Put`: store at `head`, then advance `head`. -/
def Put_store (cb : CircularBuffer) (nextHead : Nat) (data : BUFFER_TYPE) :
    Except Fault (Int × CircularBuffer) :=
  match writeSlot cb.buffer cb.head data with
  | .error f => .error f
  | .ok b => .ok (BUFFER_OK, { cb with buffer := b, head := nextHead })

/-- `CircularBuffer_Put`: the status and the buffer afterwards. -/
def CircularBuffer_Put (cb : CircularBuffer) (data : BUFFER_TYPE) :
    Except Fault (Int × CircularBuffer) :=
  match modSz (addSz cb.head 1) cb.size with
  | .error f => .error f
  | .ok nextHead =>
    if nextHead = cb.tail then
      if cb.overwrite then
        match modSz (addSz cb.tail 1) cb.size with
        | .error f => .error f
        | .ok t => Put_store { cb with tail := t } nextHead data
      else .ok (BUFFER_FULL, cb)
    else Put_store cb nextHead data

/-- `CircularBuffer_Get`: the status, the buffer afterwards and `*data` afterwards. -/
def CircularBuffer_Get (cb : CircularBuffer) (data : BUFFER_TYPE) :
    Except Fault (Int × CircularBuffer × BUFFER_TYPE) :=
  if cb.head = cb.tail then .ok (BUFFER_EMPTY, cb, data)
  else
    match readSlot cb.buffer cb.tail with
    | .error f => .error f
    | .ok v =>
      match modSz (addSz cb.tail 1) cb.size with
      | .error f => .error f
      | .ok t => .ok (BUFFER_OK, { cb with tail := t }, v)

/-- `CircularBuffer_IsEmpty`. -/
def CircularBuffer_IsEmpty (cb : CircularBuffer) : Bool :=
  decide (cb.head = cb.tail)

/-- `CircularBuffer_IsFull`. -/
def CircularBuffer_IsFull (cb : CircularBuffer) : Except Fault Bool :=
  match modSz (addSz cb.head 1) cb.size with
  | .error f => .error f
  | .ok n => .ok (decide (n = cb.tail))

/-- `CircularBuffer_Size`. -/
def CircularBuffer_Size (cb : CircularBuffer) : Nat :=
  if cb.head ≥ cb.tail then subSz cb.head cb.tail
  else subSz cb.size (subSz cb.tail cb.head)

/-- `CircularBuffer_Peek`: the result, the buffer afterwards and `*data` afterwards. -/
def CircularBuffer_Peek (cb : CircularBuffer) (data : BUFFER_TYPE) :
    Except Fault (Bool × CircularBuffer × BUFFER_TYPE) :=
  if cb.head = cb.tail then .ok (false, cb, data)
  else
    match readSlot cb.buffer cb.tail with
    | .error f => .error f
    | .ok v => .ok (true, cb, v)


/-! ## Callers -/

/-- `Simulate_Input`: one `CircularBuffer_Put` per character of the C string
`input`, up to its terminating NUL (here also the end of the list); the
characters reported as discarded are collected in order. -/
def Simulate_Input (cb : CircularBuffer) :
    List BUFFER_TYPE → Except Fault (List BUFFER_TYPE × CircularBuffer)
  | [] => .ok ([], cb)
  | x :: xs =>
    if x = 0 then .ok ([], cb)
    else
      match CircularBuffer_Put cb x with
      | .error f => .error f
      | .ok (st, cb1) =>
        match Simulate_Input cb1 xs with
        | .error f => .error f
        | .ok (ds, cb2) => .ok (if st = BUFFER_FULL then x :: ds else ds, cb2)

/-- The characters of a run of `Put` calls that were answered `BUFFER_FULL`. -/
def discarded (xs : List BUFFER_TYPE) (sts : List Int) : List BUFFER_TYPE :=
  ((xs.zip sts).filter (fun p => decide (p.2 = BUFFER_FULL))).map Prod.fst

/-- The calls that `Simulate_Input` makes on a NUL-free input: one
`CircularBuffer_Put` per element; the statuses are recorded in order. -/
def putEach (cb : CircularBuffer) : List BUFFER_TYPE → Except Fault (List Int × CircularBuffer)
  | [] => .ok ([], cb)
  | x :: xs =>
    match CircularBuffer_Put cb x with
    | .error f => .error f
    | .ok (st, cb1) =>
      match putEach cb1 xs with
      | .error f => .error f
      | .ok (sts, cb2) => .ok (st :: sts, cb2)

/-- The given number of calls of `CircularBuffer_Get` in a row; the status and
the content of `*data` after each call are recorded in order. -/
def getN (cb : CircularBuffer) (data : BUFFER_TYPE) :
    Nat → Except Fault (List (Int × BUFFER_TYPE) × CircularBuffer × BUFFER_TYPE)
  | 0 => .ok ([], cb, data)
  | n + 1 =>
    match CircularBuffer_Get cb data with
    | .error f => .error f
    | .ok (st, cb1, d1) =>
      match getN cb1 d1 n with
      | .error f => .error f
      | .ok (rs, cb2, d2) => .ok ((st, d1) :: rs, cb2, d2)

/-- The given number of calls of `CircularBuffer_Peek` in a row; the result and
the content of `*data` after each call are recorded in order. -/
def peekN (cb : CircularBuffer) (data : BUFFER_TYPE) :
    Nat → Except Fault (List (Bool × BUFFER_TYPE) × CircularBuffer × BUFFER_TYPE)
  | 0 => .ok ([], cb, data)
  | n + 1 =>
    match CircularBuffer_Peek cb data with
    | .error f => .error f
    | .ok (r, cb1, d1) =>
      match peekN cb1 d1 n with
      | .error f => .error f
      | .ok (rs, cb2, d2) => .ok ((r, d1) :: rs, cb2, d2)

/-- The loop of `Process_Buffer`: `CircularBuffer_Get` until the status is not
`BUFFER_OK`; the printed characters are collected. `data` is the local variable
of the loop. The loop is bounded by `fuel` iterations, `none` when they run out. -/
def Process_Buffer : Nat → CircularBuffer → BUFFER_TYPE →
    Option (Except Fault (List BUFFER_TYPE × CircularBuffer × BUFFER_TYPE))
  | 0, _, _ => none
  | fuel + 1, cb, data =>
    match CircularBuffer_Get cb data with
    | .error f => some (.error f)
    | .ok (st, cb1, d1) =>
      if st = BUFFER_OK then
        match Process_Buffer fuel cb1 d1 with
        | none => none
        | some (.error f) => some (.error f)
        | some (.ok (out, cb2, d2)) => some (.ok (d1 :: out, cb2, d2))
      else some (.ok ([], cb1, d1))

/-- One call of the interface on an initialised buffer. -/
inductive Op where
  | put (x : BUFFER_TYPE)
  | get
  | peek
deriving DecidableEq, Repr

/-- One call made by a caller that holds the buffer and a byte variable for
the out-parameter. -/
def step (s : CircularBuffer × BUFFER_TYPE) : Op → Except Fault (CircularBuffer × BUFFER_TYPE)
  | .put x =>
    match CircularBuffer_Put s.1 x with
    | .error f => .error f
    | .ok (_, cb) => .ok (cb, s.2)
  | .get =>
    match CircularBuffer_Get s.1 s.2 with
    | .error f => .error f
    | .ok (_, cb, d) => .ok (cb, d)
  | .peek =>
    match CircularBuffer_Peek s.1 s.2 with
    | .error f => .error f
    | .ok (_, cb, d) => .ok (cb, d)

/-- A finite sequence of calls, one after the other. -/
def run (s : CircularBuffer × BUFFER_TYPE) : List Op → Except Fault (CircularBuffer × BUFFER_TYPE)
  | [] => .ok s
  | o :: os =>
    match step s o with
    | .error f => .error f
    | .ok s1 => run s1 os

/-! ## The assignments of each call -/

/-- What an assignment of the source can target: a field of the struct, a slot
of the storage, or the byte behind the caller's `data` pointer. -/
inductive Loc where
  | buffer
  | head
  | tail
  | size
  | overwrite
  | slot (i : Nat)
  | data
deriving DecidableEq, Repr

/-- Lines 35-37 of `CircularBuffer_Put`, with the targets of their assignments
added, in order, to those in `w`. -/
def Put_store_writes (cb : CircularBuffer) (nextHead : Nat) (data : BUFFER_TYPE)
    (w : List Loc) : Except Fault (Int × CircularBuffer × List Loc) :=
  match writeSlot cb.buffer cb.head data with
  | .error f => .error f
  | .ok b => .ok (BUFFER_OK, { cb with buffer := b, head := nextHead },
      w ++ [Loc.slot cb.head, Loc.head])

/-- `CircularBuffer_Put`, together with the targets of the assignments it
executes (line 29: `tail`; line 35: the slot at `head`; line 36: `head`). -/
def CircularBuffer_Put_writes (cb : CircularBuffer) (data : BUFFER_TYPE) :
    Except Fault (Int × CircularBuffer × List Loc) :=
  match modSz (addSz cb.head 1) cb.size with
  | .error f => .error f
  | .ok nextHead =>
    if nextHead = cb.tail then
      if cb.overwrite then
        match modSz (addSz cb.tail 1) cb.size with
        | .error f => .error f
        | .ok t => Put_store_writes { cb with tail := t } nextHead data [Loc.tail]
      else .ok (BUFFER_FULL, cb, [])
    else Put_store_writes cb nextHead data []

/-- `CircularBuffer_Get`, together with the targets of the assignments it
executes (line 44: `*data`; line 45: `tail`). -/
def CircularBuffer_Get_writes (cb : CircularBuffer) (data : BUFFER_TYPE) :
    Except Fault (Int × CircularBuffer × BUFFER_TYPE × List Loc) :=
  if cb.head = cb.tail then .ok (BUFFER_EMPTY, cb, data, [])
  else
    match readSlot cb.buffer cb.tail with
    | .error f => .error f
    | .ok v =>
      match modSz (addSz cb.tail 1) cb.size with
      | .error f => .error f
      | .ok t => .ok (BUFFER_OK, { cb with tail := t }, v, [Loc.data, Loc.tail])

/-- `CircularBuffer_Peek`, together with the targets of the assignments it
executes (line 71: `*data`). -/
def CircularBuffer_Peek_writes (cb : CircularBuffer) (data : BUFFER_TYPE) :
    Except Fault (Bool × CircularBuffer × BUFFER_TYPE × List Loc) :=
  if cb.head = cb.tail then .ok (false, cb, data, [])
  else
    match readSlot cb.buffer cb.tail with
    | .error f => .error f
    | .ok v => .ok (true, cb, v, [Loc.data])

/-! ## Well-formed states -/

/-- The storage is a block of `size` slots, and `size` is a `size_t` value. -/
def Allocated (cb : CircularBuffer) : Prop :=
  cb.size < SIZE_T_MOD ∧ cb.buffer.map List.length = some cb.size

instance (cb : CircularBuffer) : Decidable (Allocated cb) := by
  unfold Allocated; infer_instance

/-- Both cursors are indices into the storage. -/
def InRange (cb : CircularBuffer) : Prop :=
  cb.head < cb.size ∧ cb.tail < cb.size

instance (cb : CircularBuffer) : Decidable (InRange cb) := by
  unfold InRange; infer_instance

/-- What `malloc` promises: a block it hands out has the requested length. -/
def MallocOk (malloc : Nat → Option (List BUFFER_TYPE)) : Prop :=
  ∀ n blk, malloc n = some blk → blk.length = n

/-- The buffer `cb` is well formed and stores the queue `q`, oldest element
first: the `i`-th element of `q` is in slot `(tail + i) % size`, and `head` is
`q.length` slots after `tail`. -/
def Holds (cb : CircularBuffer) (q : List BUFFER_TYPE) : Prop :=
  cb.size < SIZE_T_MOD ∧ cb.tail < cb.size ∧ q.length < cb.size ∧
  cb.head = (cb.tail + q.length) % cb.size ∧
  ∃ blk, cb.buffer = some blk ∧ blk.length = cb.size ∧
    ∀ i, i < q.length → blk[(cb.tail + i) % cb.size]? = q[i]?

/-- The logical contents of the buffer: the `CircularBuffer_Size` many slots from
`tail` up to but excluding `head`, in cyclic order, oldest first. (A slot
outside the storage would read as 0.) -/
def contents (cb : CircularBuffer) : List BUFFER_TYPE :=
  (List.range (CircularBuffer_Size cb)).map
    (fun i => ((cb.buffer.getD [])[(cb.tail + i) % cb.size]?).getD 0)

/-! ## Concrete states and inputs -/

/-- The test buffer of the example program after `CircularBuffer_Init(&testBuffer, 10, false)`
on a zero-filled block. -/
def testBuffer : CircularBuffer :=
  { buffer := some (List.replicate 10 0), head := 0, tail := 0, size := 10, overwrite := false }

/-- The characters of `"HELLO"`. -/
def HELLO : List BUFFER_TYPE := [72, 69, 76, 76, 79]

/-- The test buffer after the first test case: `"HELLO"` went in and out, both
cursors are at index 5. -/
def testBuffer1 : CircularBuffer :=
  { buffer := some [72, 69, 76, 76, 79, 0, 0, 0, 0, 0], head := 5, tail := 5, size := 10,
    overwrite := false }

/-- The characters of `"WORLD12345"`. -/
def WORLD12345 : List BUFFER_TYPE := [87, 79, 82, 76, 68, 49, 50, 51, 52, 53]

/-- The characters of `"BUFFEROVERFLOW"`. -/
def BUFFEROVERFLOW : List BUFFER_TYPE :=
  [66, 85, 70, 70, 69, 82, 79, 86, 69, 82, 70, 76, 79, 87]

/-- A capacity-10 buffer with overwrite enabled, both cursors at index 7. -/
def overwriteBuffer : CircularBuffer :=
  { buffer := some (List.replicate 10 0), head := 7, tail := 7, size := 10, overwrite := true }

/-- A full capacity-4 buffer without overwrite. -/
def fullBuffer : CircularBuffer :=
  { buffer := some [10, 20, 30, 40], head := 1, tail := 2, size := 4, overwrite := false }

/-- A capacity-4 buffer that stores two elements. -/
def twoStored : CircularBuffer :=
  { buffer := some [10, 20, 30, 40], head := 0, tail := 2, size := 4, overwrite := false }

/-- An allocator that hands out zero-filled blocks. -/
def zeroMalloc (n : Nat) : Option (List BUFFER_TYPE) := some (List.replicate n 0)

/-- The struct before `CircularBuffer_Init` has run on it. -/
def rawBuffer : CircularBuffer :=
  { buffer := none, head := 77, tail := 13, size := 5, overwrite := true }

/-- What `CircularBuffer_Init` hands out for `size` 0 when `malloc(0)` returns a
block (of no elements) and not `NULL`. -/
def zeroCapacity : CircularBuffer :=
  { buffer := some [], head := 0, tail := 0, size := 0, overwrite := false }

/-- A full capacity-4 buffer with overwrite enabled. -/
def fullOverwrite : CircularBuffer :=
  { buffer := some [10, 20, 30, 40], head := 1, tail := 2, size := 4, overwrite := true }

/-- A capacity-1 buffer with overwrite enabled. -/
def oneSlot : CircularBuffer :=
  { buffer := some [0], head := 0, tail := 0, size := 1, overwrite := true }

/-! ## Arithmetic of the cursors -/

theorem SIZE_T_MOD_pos : 0 < SIZE_T_MOD := by unfold SIZE_T_MOD; norm_num

theorem addSz_eq {a b : Nat} (h : a + b < SIZE_T_MOD) : addSz a b = a + b := by
  unfold addSz; exact Nat.mod_eq_of_lt h

theorem subSz_eq {a b : Nat} (ha : a < SIZE_T_MOD) (hb : b ≤ a) : subSz a b = a - b := by
  unfold subSz
  have hb2 : b < SIZE_T_MOD := by omega
  rw [Nat.mod_eq_of_lt ha, Nat.mod_eq_of_lt hb2]
  have : a + (SIZE_T_MOD - b) = (a - b) + SIZE_T_MOD := by omega
  rw [this, Nat.add_mod_right]
  exact Nat.mod_eq_of_lt (by omega)

/-- Reduction modulo `n` of a sum of two numbers below `n`. -/
theorem wrap_add {n a b : Nat} (ha : a < n) (hb : b < n) :
    (a + b) % n = if a + b < n then a + b else a + b - n := by
  split
  · next h => exact Nat.mod_eq_of_lt h
  · next h =>
    have : a + b = (a + b - n) + n := by omega
    rw [this, Nat.add_mod_right, Nat.mod_eq_of_lt (by omega)]
    omega

theorem modSz_ok {a n : Nat} (h : 0 < n) : modSz a n = .ok (a % n) := by
  unfold modSz; rw [if_neg (by omega)]

/-- The cursor advance `(c + 1) % size` of the source, for a cursor in range. -/
theorem advance_ok {c n : Nat} (hn : n < SIZE_T_MOD) (hc : c < n) :
    modSz (addSz c 1) n = .ok ((c + 1) % n) := by
  rw [addSz_eq (by omega), modSz_ok (by omega)]

theorem advance_lt {c n : Nat} (hc : c < n) : (c + 1) % n < n := Nat.mod_lt _ (by omega)

theorem advance_val {c n : Nat} (hc : c < n) :
    (c + 1) % n = if c + 1 = n then 0 else c + 1 := by
  split
  · next h => rw [h, Nat.mod_self]
  · next h => exact Nat.mod_eq_of_lt (by omega)

theorem writeSlot_ok {blk : List BUFFER_TYPE} {i : Nat} (v : BUFFER_TYPE) (h : i < blk.length) :
    writeSlot (some blk) i v = .ok (some (blk.set i v)) := by
  simp [writeSlot, h]

theorem readSlot_ok {blk : List BUFFER_TYPE} {i : Nat} {v : BUFFER_TYPE} (h : blk[i]? = some v) :
    readSlot (some blk) i = .ok v := by
  simp [readSlot, h]

/-- The slot of the `i`-th stored element is not the slot of the `j`-th. -/
theorem slot_ne {n t i j : Nat} (ht : t < n) (hi : i < n) (hj : j < n) (hij : i ≠ j) :
    (t + i) % n ≠ (t + j) % n := by
  rw [wrap_add ht hi, wrap_add ht hj]
  split <;> split <;> omega

theorem slot_succ {n t k : Nat} (ht : t < n) (hk : k < n) :
    ((t + k) % n + 1) % n = (t + (k + 1)) % n := by
  rw [← Nat.add_assoc, Nat.add_mod (t + k) 1 n]
  by_cases h1 : n = 1
  · subst h1; simp [Nat.mod_one]
  · rw [Nat.mod_eq_of_lt (show 1 < n by omega)]

theorem holds_head_lt {cb : CircularBuffer} {q : List BUFFER_TYPE} (h : Holds cb q) :
    cb.head < cb.size := by
  obtain ⟨_, ht, _, hh, _⟩ := h
  rw [hh]; exact Nat.mod_lt _ (by omega)

/-- `Put` on a buffer with a free slot appends the element to the stored queue. -/
theorem put_append {cb : CircularBuffer} {q : List BUFFER_TYPE} (x : BUFFER_TYPE)
    (h : Holds cb q) (hfree : q.length + 1 < cb.size) :
    ∃ cb1, CircularBuffer_Put cb x = .ok (BUFFER_OK, cb1) ∧ Holds cb1 (q ++ [x]) ∧
      cb1.size = cb.size ∧ cb1.overwrite = cb.overwrite ∧ cb1.tail = cb.tail := by
  have hhl := holds_head_lt h
  obtain ⟨hs, ht, hq, hh, blk, hb, hl, hslots⟩ := h
  have hnext : (cb.head + 1) % cb.size = (cb.tail + (q.length + 1)) % cb.size := by
    rw [hh]; exact slot_succ ht hq
  have hne : (cb.head + 1) % cb.size ≠ cb.tail := by
    rw [hnext]
    have := slot_ne ht (show q.length + 1 < cb.size from hfree) (show 0 < cb.size by omega)
      (by omega)
    simpa [Nat.mod_eq_of_lt ht] using this
  refine ⟨{ cb with buffer := some (blk.set cb.head x), head := (cb.head + 1) % cb.size }, ?_, ?_, rfl, rfl, rfl⟩
  · unfold CircularBuffer_Put
    rw [advance_ok hs hhl]
    simp only [hne, if_false, Put_store, hb]
    rw [writeSlot_ok x (by omega)]
  · refine ⟨hs, ht, by simpa using hfree, by simpa using hnext, blk.set cb.head x, rfl, by simpa using hl, ?_⟩
    intro i hi
    simp only [List.length_append, List.length_singleton] at hi
    by_cases hlt : i < q.length
    · have hidx : cb.head ≠ (cb.tail + i) % cb.size := by
        rw [hh]; exact slot_ne ht hq (by omega) (by omega)
      simp only []
      rw [List.getElem?_set_ne hidx, hslots i hlt, List.getElem?_append_left hlt]
    · have hi2 : i = q.length := by omega
      subst hi2
      simp only []
      rw [← hh, List.getElem?_set_self (by omega), List.getElem?_concat_length]

/-- With `size - 1` stored elements the advanced `head` meets `tail`. -/
theorem full_next {cb : CircularBuffer} {q : List BUFFER_TYPE}
    (h : Holds cb q) (hfull : q.length + 1 = cb.size) :
    (cb.head + 1) % cb.size = cb.tail := by
  obtain ⟨_, ht, hq, hh, _⟩ := h
  rw [hh, slot_succ ht hq, hfull, Nat.add_mod_right, Nat.mod_eq_of_lt ht]

/-- `Put` on a full buffer without overwrite is rejected and changes nothing. -/
theorem put_full_reject {cb : CircularBuffer} {q : List BUFFER_TYPE} (x : BUFFER_TYPE)
    (h : Holds cb q) (hfull : q.length + 1 = cb.size) (ho : cb.overwrite = false) :
    CircularBuffer_Put cb x = .ok (BUFFER_FULL, cb) := by
  have hhl := holds_head_lt h
  have hn := full_next h hfull
  unfold CircularBuffer_Put
  rw [advance_ok h.1 hhl]
  simp [hn, ho]

/-- `Put` on a full buffer with overwrite drops the oldest element and appends
the new one. -/
theorem put_full_evict {cb : CircularBuffer} {a : BUFFER_TYPE} {q : List BUFFER_TYPE}
    (x : BUFFER_TYPE) (h : Holds cb (a :: q)) (hfull : q.length + 2 = cb.size)
    (ho : cb.overwrite = true) :
    ∃ cb1, CircularBuffer_Put cb x = .ok (BUFFER_OK, cb1) ∧ Holds cb1 (q ++ [x]) ∧
      cb1.size = cb.size ∧ cb1.overwrite = cb.overwrite := by
  have hhl := holds_head_lt h
  have hn := full_next h (by simpa using hfull)
  obtain ⟨hs, ht, hq, hh, blk, hb, hl, hslots⟩ := h
  simp only [List.length_cons] at hq hh hslots
  refine ⟨{ cb with buffer := some (blk.set cb.head x), head := cb.tail,
                    tail := (cb.tail + 1) % cb.size }, ?_, ?_, rfl, rfl⟩
  · unfold CircularBuffer_Put
    rw [advance_ok hs hhl, advance_ok hs ht]
    simp only [hn, if_true, ho, Put_store, hb]
    rw [writeSlot_ok x (by omega)]
  · have hlen : (q ++ [x]).length = q.length + 1 := by simp
    refine ⟨hs, advance_lt ht, by simp only [hlen]; omega, ?_, blk.set cb.head x, rfl,
      by simpa using hl, ?_⟩
    · simp only [hlen]
      rw [Nat.mod_add_mod, show cb.tail + 1 + (q.length + 1) = cb.tail + cb.size by omega,
        Nat.add_mod_right, Nat.mod_eq_of_lt ht]
    · intro i hi
      rw [hlen] at hi
      simp only []
      rw [Nat.mod_add_mod, show cb.tail + 1 + i = cb.tail + (i + 1) by omega]
      by_cases hlt : i < q.length
      · have hidx : cb.head ≠ (cb.tail + (i + 1)) % cb.size := by
          rw [hh]; exact slot_ne ht hq (by omega) (by omega)
        rw [List.getElem?_set_ne hidx, hslots (i + 1) (by omega), List.getElem?_cons_succ,
          List.getElem?_append_left hlt]
      · have hi2 : i = q.length := by omega
        subst hi2
        rw [← hh, List.getElem?_set_self (by omega), List.getElem?_concat_length]

/-- `Get` on an empty buffer reports `BUFFER_EMPTY` and changes nothing. -/
theorem get_nil {cb : CircularBuffer} (d : BUFFER_TYPE) (h : Holds cb []) :
    CircularBuffer_Get cb d = .ok (BUFFER_EMPTY, cb, d) := by
  obtain ⟨_, ht, _, hh, _⟩ := h
  simp only [List.length_nil, Nat.add_zero, Nat.mod_eq_of_lt ht] at hh
  simp [CircularBuffer_Get, hh]

/-- `Get` on a buffer that stores `a :: q` delivers `a` and leaves `q`. -/
theorem get_cons {cb : CircularBuffer} {a : BUFFER_TYPE} {q : List BUFFER_TYPE}
    (d : BUFFER_TYPE) (h : Holds cb (a :: q)) :
    ∃ cb1, CircularBuffer_Get cb d = .ok (BUFFER_OK, cb1, a) ∧ Holds cb1 q ∧
      cb1.size = cb.size ∧ cb1.overwrite = cb.overwrite ∧ cb1.head = cb.head := by
  obtain ⟨hs, ht, hq, hh, blk, hb, hl, hslots⟩ := h
  simp only [List.length_cons] at hq hh hslots
  have hne : cb.head ≠ cb.tail := by
    rw [hh]
    have := slot_ne ht hq (show 0 < cb.size by omega) (show q.length + 1 ≠ 0 by omega)
    simpa [Nat.mod_eq_of_lt ht] using this
  have h0 : blk[cb.tail]? = some a := by
    have := hslots 0 (by omega)
    simpa [Nat.mod_eq_of_lt ht] using this
  refine ⟨{ cb with tail := (cb.tail + 1) % cb.size }, ?_, ?_, rfl, rfl, rfl⟩
  · unfold CircularBuffer_Get
    rw [if_neg hne, hb, readSlot_ok h0]
    simp only []
    rw [advance_ok hs ht]
  · refine ⟨hs, advance_lt ht, (by show q.length < cb.size; omega), ?_, blk, hb, hl, ?_⟩
    · simp only []
      rw [Nat.mod_add_mod, hh, show cb.tail + 1 + q.length = cb.tail + (q.length + 1) by omega]
    · intro i hi
      simp only []
      rw [Nat.mod_add_mod, show cb.tail + 1 + i = cb.tail + (i + 1) by omega,
        hslots (i + 1) (by omega), List.getElem?_cons_succ]

/-- The count of a buffer that stores `q` is the length of `q`. -/
theorem size_of_holds {cb : CircularBuffer} {q : List BUFFER_TYPE} (h : Holds cb q) :
    CircularBuffer_Size cb = q.length := by
  have hhl := holds_head_lt h
  obtain ⟨hs, ht, hq, hh, blk, _, hl, _⟩ := h
  rw [wrap_add ht hq] at hh
  have hlen : blk.length = cb.size := hl
  unfold CircularBuffer_Size
  split
  · next hge =>
    rw [subSz_eq (by omega) hge]
    split at hh <;> omega
  · next hlt =>
    have e1 : subSz cb.tail cb.head = cb.tail - cb.head := subSz_eq (by omega) (by omega)
    rw [e1, subSz_eq hs (by omega)]
    split at hh <;> omega

/-- An allocated buffer whose cursors coincide in range stores the empty queue. -/
theorem holds_nil {cb : CircularBuffer} (hA : Allocated cb) (hh : cb.head < cb.size)
    (he : cb.head = cb.tail) : Holds cb [] := by
  obtain ⟨hs, hb⟩ := hA
  cases hbuf : cb.buffer with
  | none => simp [hbuf] at hb
  | some blk =>
    simp [hbuf] at hb
    refine ⟨hs, by omega, by simpa using (by omega : 0 < cb.size), ?_, blk, hbuf, hb, ?_⟩
    · simp [Nat.mod_eq_of_lt (show cb.tail < cb.size by omega), he]
    · intro i hi; simp at hi

/-! ## Sequences of calls -/

/-- Every `Put` on a full buffer without overwrite is rejected. -/
theorem putEach_rejected (xs : List BUFFER_TYPE) {cb : CircularBuffer} {q : List BUFFER_TYPE}
    (h : Holds cb q) (hfull : q.length + 1 = cb.size) (ho : cb.overwrite = false) :
    putEach cb xs = .ok (List.replicate xs.length BUFFER_FULL, cb) := by
  induction xs with
  | nil => rfl
  | cons x xs ih =>
    simp only [putEach, put_full_reject x h hfull ho, ih, List.length_cons, List.replicate_succ]

/-- Without overwrite a run of `Put` calls stores elements while there is room
and rejects the rest. -/
theorem putEach_no_overwrite (xs : List BUFFER_TYPE) :
    ∀ {cb : CircularBuffer} {q : List BUFFER_TYPE}, Holds cb q → cb.overwrite = false →
    ∃ cb1, putEach cb xs =
        .ok (List.replicate (min xs.length (cb.size - 1 - q.length)) BUFFER_OK ++
             List.replicate (xs.length - min xs.length (cb.size - 1 - q.length)) BUFFER_FULL, cb1) ∧
      Holds cb1 (q ++ xs.take (cb.size - 1 - q.length)) ∧ cb1.size = cb.size := by
  induction xs with
  | nil => intro cb q h _; exact ⟨cb, by simp [putEach], by simpa using h, rfl⟩
  | cons x xs ih =>
    intro cb q h ho
    have hq : q.length < cb.size := h.2.2.1
    by_cases hfree : q.length + 1 < cb.size
    · obtain ⟨cb1, hput, h1, hs1, ho1, _⟩ := put_append x h hfree
      obtain ⟨cb2, hrest, h2, hs2⟩ := ih h1 (by rw [ho1]; exact ho)
      obtain ⟨m, hm⟩ : ∃ m, cb.size - 1 - q.length = m + 1 := ⟨cb.size - 2 - q.length, by omega⟩
      have hm1 : cb1.size - 1 - (q ++ [x]).length = m := by
        rw [hs1, List.length_append, List.length_singleton]; omega
      rw [hm1] at hrest h2
      refine ⟨cb2, ?_, ?_, by rw [hs2, hs1]⟩
      · simp only [putEach, hput, hrest, hm, List.length_cons]
        rw [Nat.succ_min_succ, List.replicate_succ, Nat.succ_sub_succ]
        rfl
      · rw [hm, List.take_succ_cons]
        simpa using h2
    · have hfull : q.length + 1 = cb.size := by omega
      have h0 : cb.size - 1 - q.length = 0 := by omega
      refine ⟨cb, ?_, by simpa [h0] using h, rfl⟩
      rw [putEach_rejected (x :: xs) h hfull ho, h0]
      simp

/-- With overwrite every `Put` is accepted and the buffer keeps the newest
`size - 1` elements. -/
theorem putEach_overwrite (xs : List BUFFER_TYPE) :
    ∀ {cb : CircularBuffer} {q : List BUFFER_TYPE}, Holds cb q → 2 ≤ cb.size →
    cb.overwrite = true →
    ∃ cb1, putEach cb xs = .ok (List.replicate xs.length BUFFER_OK, cb1) ∧
      Holds cb1 ((q ++ xs).drop (q.length + xs.length - (cb.size - 1))) ∧
      cb1.size = cb.size := by
  induction xs with
  | nil =>
    intro cb q h _ _
    have hq : q.length < cb.size := h.2.2.1
    refine ⟨cb, rfl, ?_, rfl⟩
    have : q.length + ([] : List BUFFER_TYPE).length - (cb.size - 1) = 0 := by
      simp only [List.length_nil]; omega
    rw [this]; simpa using h
  | cons x xs ih =>
    intro cb q h h2 ho
    have hq : q.length < cb.size := h.2.2.1
    by_cases hfree : q.length + 1 < cb.size
    · obtain ⟨cb1, hput, h1, hs1, ho1, _⟩ := put_append x h hfree
      obtain ⟨cb2, hrest, hh2, hs2⟩ := ih h1 (by omega) (by rw [ho1]; exact ho)
      refine ⟨cb2, ?_, ?_, by rw [hs2, hs1]⟩
      · simp only [putEach, hput, hrest, List.length_cons, List.replicate_succ]
      · have e1 : (q ++ [x]) ++ xs = q ++ x :: xs := by simp
        have e2 : (q ++ [x]).length + xs.length - (cb1.size - 1)
            = q.length + (x :: xs).length - (cb.size - 1) := by
          rw [hs1]; simp only [List.length_append, List.length_cons, List.length_nil]; omega
        rw [e1, e2] at hh2; exact hh2
    · cases q with
      | nil => simp only [List.length_nil] at hfree; omega
      | cons a q =>
        simp only [List.length_cons] at hfree hq
        have hfull : q.length + 2 = cb.size := by omega
        obtain ⟨cb1, hput, h1, hs1, ho1⟩ := put_full_evict x h hfull ho
        obtain ⟨cb2, hrest, hh2, hs2⟩ := ih h1 (by omega) (by rw [ho1]; exact ho)
        refine ⟨cb2, ?_, ?_, by rw [hs2, hs1]⟩
        · simp only [putEach, hput, hrest, List.length_cons, List.replicate_succ]
        · have e1 : (q ++ [x]) ++ xs = q ++ x :: xs := by simp
          have e2 : (q ++ [x]).length + xs.length - (cb1.size - 1) = xs.length := by
            rw [hs1]; simp only [List.length_append, List.length_cons, List.length_nil]; omega
          have e3 : (a :: q).length + (x :: xs).length - (cb.size - 1) = xs.length + 1 := by
            simp only [List.length_cons]; omega
          rw [e1, e2] at hh2
          rw [e3, List.cons_append, List.drop_succ_cons]; exact hh2

/-- Draining a buffer that stores `q` prints `q` and leaves the buffer empty. -/
theorem drain (q : List BUFFER_TYPE) :
    ∀ {cb : CircularBuffer} (d : BUFFER_TYPE), Holds cb q →
    ∃ cb1 d1, Holds cb1 [] ∧ cb1.head = cb.head ∧ cb1.size = cb.size ∧
      ∀ fuel, q.length < fuel → Process_Buffer fuel cb d = some (.ok (q, cb1, d1)) := by
  induction q with
  | nil =>
    intro cb d h
    refine ⟨cb, d, h, rfl, rfl, ?_⟩
    intro fuel hf
    obtain ⟨f, rfl⟩ : ∃ f, fuel = f + 1 := ⟨fuel - 1, by simp at hf; omega⟩
    simp [Process_Buffer, get_nil d h, BUFFER_EMPTY, BUFFER_OK]
  | cons a q ih =>
    intro cb d h
    obtain ⟨cb1, hget, h1, hs1, _, hh1⟩ := get_cons d h
    obtain ⟨cb2, d2, h2, hh2, hs2, hrun⟩ := ih a h1
    refine ⟨cb2, d2, h2, by rw [hh2, hh1], by rw [hs2, hs1], ?_⟩
    intro fuel hf
    obtain ⟨f, rfl⟩ : ∃ f, fuel = f + 1 := ⟨fuel - 1, by simp at hf; omega⟩
    simp only [List.length_cons] at hf
    simp [Process_Buffer, hget, hrun f (by omega)]

/-- As many `Get` calls as there are stored elements deliver them in order. -/
theorem getN_all (q : List BUFFER_TYPE) :
    ∀ {cb : CircularBuffer} (d : BUFFER_TYPE), Holds cb q →
    ∃ cb1 d1, getN cb d q.length = .ok (q.map (fun e => (BUFFER_OK, e)), cb1, d1) ∧
      Holds cb1 [] := by
  induction q with
  | nil => intro cb d h; exact ⟨cb, d, rfl, h⟩
  | cons a q ih =>
    intro cb d h
    obtain ⟨cb1, hget, h1, _⟩ := get_cons d h
    obtain ⟨cb2, d2, hrun, h2⟩ := ih a h1
    exact ⟨cb2, d2, by simp [getN, hget, hrun], h2⟩

/-- On a NUL-free input `Simulate_Input` is the run of `Put` calls of `putEach`, and
it reports exactly the characters answered `BUFFER_FULL`. -/
theorem Simulate_Input_eq (xs : List BUFFER_TYPE) :
    ∀ (cb : CircularBuffer) (sts : List Int) (cb1 : CircularBuffer),
    (∀ x ∈ xs, x ≠ 0) → putEach cb xs = .ok (sts, cb1) →
    Simulate_Input cb xs = .ok (discarded xs sts, cb1) := by
  induction xs with
  | nil =>
    intro cb sts cb1 _ h
    simp only [putEach, Except.ok.injEq, Prod.mk.injEq] at h
    obtain ⟨rfl, rfl⟩ := h
    rfl
  | cons x xs ih =>
    intro cb sts cb1 hx h
    have hx0 : x ≠ 0 := hx x (List.mem_cons_self _ _)
    have hxs : ∀ y ∈ xs, y ≠ 0 := fun y hy => hx y (List.mem_cons_of_mem _ hy)
    unfold putEach at h
    unfold Simulate_Input
    rw [if_neg hx0]
    cases hp : CircularBuffer_Put cb x with
    | error f => simp [hp] at h
    | ok r =>
      obtain ⟨st, cb2⟩ := r
      cases hr : putEach cb2 xs with
      | error f => simp [hp, hr] at h
      | ok r2 =>
        obtain ⟨sts2, cb3⟩ := r2
        simp only [hp, hr, Except.ok.injEq, Prod.mk.injEq] at h
        obtain ⟨rfl, rfl⟩ := h
        simp only [ih cb2 sts2 cb3 hxs hr]
        by_cases hst : st = BUFFER_FULL
        · simp [discarded, hst]
        · simp [discarded, hst]

theorem take_min_length (xs : List BUFFER_TYPE) (n : Nat) :
    xs.take (min xs.length n) = xs.take n := by
  by_cases h : xs.length ≤ n
  · rw [Nat.min_eq_left h, List.take_of_length_le h, List.take_of_length_le (Nat.le_refl _)]
  · rw [Nat.min_eq_right (by omega)]

/-! ## The claims -/

/-- C1 (FIFO ordering). For a buffer of capacity at least 2, in either overwrite
setting, that is empty with `head = tail` at any index in range, and a list `es`
of at most `size - 1` elements: the `Put` calls on `es` all return `BUFFER_OK`,
`CircularBuffer_Size` is then the length of `es`, the same number of `Get` calls
all return `BUFFER_OK` and deliver `es` in order, and the buffer is then empty
(`IsEmpty` holds and a further `Get` returns `BUFFER_EMPTY`). -/
theorem C1_fifo_ordering (cb : CircularBuffer) (es : List BUFFER_TYPE) (d : BUFFER_TYPE)
    (hN : 2 ≤ cb.size) (hA : Allocated cb) (hh : cb.head < cb.size) (he : cb.head = cb.tail)
    (hk : es.length ≤ cb.size - 1) :
    ∃ cb1 cb2 d2,
      putEach cb es = .ok (List.replicate es.length BUFFER_OK, cb1) ∧
      CircularBuffer_Size cb1 = es.length ∧
      getN cb1 d es.length = .ok (es.map (fun e => (BUFFER_OK, e)), cb2, d2) ∧
      CircularBuffer_IsEmpty cb2 = true ∧
      CircularBuffer_Get cb2 d2 = .ok (BUFFER_EMPTY, cb2, d2) := by
  have h0 := holds_nil hA hh he
  have hstored : ∃ cb1, putEach cb es = .ok (List.replicate es.length BUFFER_OK, cb1) ∧
      Holds cb1 es := by
    cases ho : cb.overwrite with
    | true =>
      obtain ⟨cb1, hput, h1, _⟩ := putEach_overwrite es h0 hN ho
      have e : ([] : List BUFFER_TYPE).length + es.length - (cb.size - 1) = 0 := by
        simp only [List.length_nil]; omega
      rw [e] at h1
      exact ⟨cb1, hput, by simpa using h1⟩
    | false =>
      obtain ⟨cb1, hput, h1, _⟩ := putEach_no_overwrite es h0 ho
      simp only [List.length_nil, Nat.sub_zero, Nat.min_eq_left hk, Nat.sub_self,
        List.replicate_zero, List.append_nil, List.nil_append] at hput h1
      rw [List.take_of_length_le hk] at h1
      exact ⟨cb1, hput, h1⟩
  obtain ⟨cb1, hput, h1⟩ := hstored
  obtain ⟨cb2, d2, hget, h2⟩ := getN_all es d h1
  refine ⟨cb1, cb2, d2, hput, size_of_holds h1, hget, ?_, get_nil d2 h2⟩
  have := size_of_holds h2
  obtain ⟨_, ht, _, hhd, _⟩ := h2
  simp only [List.length_nil, Nat.add_zero, Nat.mod_eq_of_lt ht] at hhd
  simp [CircularBuffer_IsEmpty, hhd]

/-- Witness of C1: capacity 10, `"HELLO"` in, `"HELLO"` out. -/
theorem C1_fifo_ordering_witness :
    (2 ≤ testBuffer.size ∧ Allocated testBuffer ∧ testBuffer.head < testBuffer.size ∧
      testBuffer.head = testBuffer.tail ∧ HELLO.length ≤ testBuffer.size - 1) ∧
    ∃ cb1 cb2 d2,
      putEach testBuffer HELLO = .ok (List.replicate HELLO.length BUFFER_OK, cb1) ∧
      CircularBuffer_Size cb1 = HELLO.length ∧
      getN cb1 0 HELLO.length = .ok (HELLO.map (fun e => (BUFFER_OK, e)), cb2, d2) ∧
      CircularBuffer_IsEmpty cb2 = true ∧
      CircularBuffer_Get cb2 d2 = .ok (BUFFER_EMPTY, cb2, d2) :=
  ⟨by decide, C1_fifo_ordering testBuffer HELLO 0 (by decide) (by decide) (by decide)
    (by decide) (by decide)⟩

/-- C2 (overflow with overwrite disabled). For an empty buffer (`head = tail` at
any index in range) of any capacity, so in particular of capacity at least 2,
without overwrite and any input `xs`: the `Put` calls
return `BUFFER_OK` for exactly the first `min xs.length (size - 1)` elements and
`BUFFER_FULL` for every later one; draining with `Get` until it does not return
`BUFFER_OK` then terminates, yields exactly the first `min xs.length (size - 1)`
elements of `xs` in order, and stops on `BUFFER_EMPTY`. -/
theorem C2_overflow_no_overwrite (cb : CircularBuffer) (xs : List BUFFER_TYPE)
    (d : BUFFER_TYPE) (hA : Allocated cb) (hh : cb.head < cb.size)
    (he : cb.head = cb.tail) (ho : cb.overwrite = false) :
    ∃ cb1 cb2 d2,
      putEach cb xs =
        .ok (List.replicate (min xs.length (cb.size - 1)) BUFFER_OK ++
             List.replicate (xs.length - min xs.length (cb.size - 1)) BUFFER_FULL, cb1) ∧
      (∀ fuel, min xs.length (cb.size - 1) < fuel →
        Process_Buffer fuel cb1 d =
          some (.ok (xs.take (min xs.length (cb.size - 1)), cb2, d2))) ∧
      CircularBuffer_Get cb2 d2 = .ok (BUFFER_EMPTY, cb2, d2) := by
  have h0 := holds_nil hA hh he
  obtain ⟨cb1, hput, h1, _⟩ := putEach_no_overwrite xs h0 ho
  simp only [List.length_nil, Nat.sub_zero, List.nil_append] at hput h1
  obtain ⟨cb2, d2, h2, _, _, hrun⟩ := drain _ d h1
  refine ⟨cb1, cb2, d2, hput, ?_, get_nil d2 h2⟩
  intro fuel hf
  rw [take_min_length]
  apply hrun
  rw [List.length_take, Nat.min_comm]
  exact hf

/-- Witness of C2: the reused capacity-10 buffer and `"WORLD12345"`. -/
theorem C2_overflow_no_overwrite_witness :
    (Allocated testBuffer1 ∧ testBuffer1.head < testBuffer1.size ∧
      testBuffer1.head = testBuffer1.tail ∧ testBuffer1.overwrite = false) ∧
    ∃ cb1 cb2 d2,
      putEach testBuffer1 WORLD12345 =
        .ok (List.replicate (min WORLD12345.length (testBuffer1.size - 1)) BUFFER_OK ++
             List.replicate (WORLD12345.length - min WORLD12345.length (testBuffer1.size - 1))
               BUFFER_FULL, cb1) ∧
      (∀ fuel, min WORLD12345.length (testBuffer1.size - 1) < fuel →
        Process_Buffer fuel cb1 0 =
          some (.ok (WORLD12345.take (min WORLD12345.length (testBuffer1.size - 1)), cb2, d2))) ∧
      CircularBuffer_Get cb2 d2 = .ok (BUFFER_EMPTY, cb2, d2) :=
  ⟨by decide, C2_overflow_no_overwrite testBuffer1 WORLD12345 0 (by decide) (by decide)
    (by decide) (by decide)⟩

/-- The first test case of the example program: `"HELLO"` is accepted whole, the
count is 5, and draining prints `"HELLO"`. -/
theorem scenario_round_trip :
    Simulate_Input testBuffer HELLO = .ok ([], { testBuffer1 with head := 5, tail := 0 }) ∧
    putEach testBuffer HELLO =
      .ok ([0, 0, 0, 0, 0], { testBuffer1 with head := 5, tail := 0 }) ∧
    CircularBuffer_Size { testBuffer1 with head := 5, tail := 0 } = 5 ∧
    Process_Buffer 6 { testBuffer1 with head := 5, tail := 0 } 0 =
      some (.ok ([72, 69, 76, 76, 79], testBuffer1, 79)) :=
  ⟨rfl, rfl, rfl, rfl⟩

/-- The second test case: of `"WORLD12345"` the first nine characters are
accepted, `'5'` is rejected with `BUFFER_FULL` and reported as discarded, and
draining prints `"WORLD1234"`. -/
theorem scenario_wrap_around :
    ∃ cb1 cb2,
      Simulate_Input testBuffer1 WORLD12345 = .ok ([53], cb1) ∧
      putEach testBuffer1 WORLD12345 = .ok ([0, 0, 0, 0, 0, 0, 0, 0, 0, 1], cb1) ∧
      Process_Buffer 10 cb1 79 =
        some (.ok ([87, 79, 82, 76, 68, 49, 50, 51, 52], cb2, 52)) ∧
      cb2.head = 4 ∧ cb2.tail = 4 :=
  ⟨_, _, rfl, rfl, rfl, rfl, rfl⟩

/-- The third test case: of `"BUFFEROVERFLOW"` the first nine characters are
accepted, the five characters `"RFLOW"` are rejected, and draining prints
`"BUFFEROVE"`. -/
theorem scenario_overflow :
    ∃ cb1 cb2,
      Simulate_Input { testBuffer1 with head := 4, tail := 4 } BUFFEROVERFLOW =
        .ok ([82, 70, 76, 79, 87], cb1) ∧
      putEach { testBuffer1 with head := 4, tail := 4 } BUFFEROVERFLOW =
        .ok ([0, 0, 0, 0, 0, 0, 0, 0, 0, 1, 1, 1, 1, 1], cb1) ∧
      Process_Buffer 10 cb1 52 =
        some (.ok ([66, 85, 70, 70, 69, 82, 79, 86, 69], cb2, 69)) :=
  ⟨_, _, rfl, rfl, rfl⟩

/-- C5 (overwrite keeps the newest elements). For an empty buffer of capacity at
least 2 with overwrite enabled and any input `xs`: every `Put` returns
`BUFFER_OK`, and draining with `Get` afterwards terminates and yields exactly
the last `min xs.length (size - 1)` elements of `xs` in insertion order,
stopping on `BUFFER_EMPTY`. -/
theorem C5_overwrite_keeps_newest (cb : CircularBuffer) (xs : List BUFFER_TYPE)
    (d : BUFFER_TYPE) (hN : 2 ≤ cb.size) (hA : Allocated cb) (hh : cb.head < cb.size)
    (he : cb.head = cb.tail) (ho : cb.overwrite = true) :
    ∃ cb1 cb2 d2,
      putEach cb xs = .ok (List.replicate xs.length BUFFER_OK, cb1) ∧
      (∀ fuel, min xs.length (cb.size - 1) < fuel →
        Process_Buffer fuel cb1 d =
          some (.ok (xs.drop (xs.length - min xs.length (cb.size - 1)), cb2, d2))) ∧
      CircularBuffer_Get cb2 d2 = .ok (BUFFER_EMPTY, cb2, d2) := by
  have h0 := holds_nil hA hh he
  obtain ⟨cb1, hput, h1, _⟩ := putEach_overwrite xs h0 hN ho
  simp only [List.length_nil, Nat.zero_add, List.nil_append] at h1
  obtain ⟨cb2, d2, h2, _, _, hrun⟩ := drain _ d h1
  refine ⟨cb1, cb2, d2, hput, ?_, get_nil d2 h2⟩
  intro fuel hf
  have e : xs.length - min xs.length (cb.size - 1) = xs.length - (cb.size - 1) := by omega
  rw [e]
  apply hrun
  rw [List.length_drop]
  omega

/-- Witness of C5: `"BUFFEROVERFLOW"` into a capacity-10 buffer with overwrite. -/
theorem C5_overwrite_keeps_newest_witness :
    (2 ≤ overwriteBuffer.size ∧ Allocated overwriteBuffer ∧
      overwriteBuffer.head < overwriteBuffer.size ∧
      overwriteBuffer.head = overwriteBuffer.tail ∧ overwriteBuffer.overwrite = true) ∧
    ∃ cb1 cb2 d2,
      putEach overwriteBuffer BUFFEROVERFLOW =
        .ok (List.replicate BUFFEROVERFLOW.length BUFFER_OK, cb1) ∧
      (∀ fuel, min BUFFEROVERFLOW.length (overwriteBuffer.size - 1) < fuel →
        Process_Buffer fuel cb1 0 =
          some (.ok (BUFFEROVERFLOW.drop
            (BUFFEROVERFLOW.length - min BUFFEROVERFLOW.length (overwriteBuffer.size - 1)),
            cb2, d2))) ∧
      CircularBuffer_Get cb2 d2 = .ok (BUFFER_EMPTY, cb2, d2) :=
  ⟨by decide, C5_overwrite_keeps_newest overwriteBuffer BUFFEROVERFLOW 0 (by decide)
    (by decide) (by decide) (by decide) (by decide)⟩

/-- With overwrite, of `"BUFFEROVERFLOW"` the last nine characters `"ROVERFLOW"`
remain, every `Put` having returned `BUFFER_OK`. -/
theorem scenario_overwrite :
    ∃ cb1 cb2,
      putEach overwriteBuffer BUFFEROVERFLOW =
        .ok ([0, 0, 0, 0, 0, 0, 0, 0, 0, 0, 0, 0, 0, 0], cb1) ∧
      Process_Buffer 10 cb1 0 =
        some (.ok ([82, 79, 86, 69, 82, 70, 76, 79, 87], cb2, 87)) :=
  ⟨_, _, rfl, rfl⟩

/-! ## Single calls on a well-formed buffer -/

theorem allocated_block {cb : CircularBuffer} (hA : Allocated cb) :
    ∃ blk, cb.buffer = some blk ∧ blk.length = cb.size := by
  obtain ⟨_, hb⟩ := hA
  cases hbuf : cb.buffer with
  | none => simp [hbuf] at hb
  | some blk => exact ⟨blk, rfl, by simpa [hbuf] using hb⟩

/-- What `Put` does on a buffer whose storage has `size` slots and whose `head`
is in range. -/
theorem put_eval {cb : CircularBuffer} {blk : List BUFFER_TYPE} (x : BUFFER_TYPE)
    (hs : cb.size < SIZE_T_MOD) (hb : cb.buffer = some blk) (hl : blk.length = cb.size)
    (hR : InRange cb) :
    CircularBuffer_Put cb x =
      if (cb.head + 1) % cb.size = cb.tail then
        if cb.overwrite = true then
          .ok (BUFFER_OK, { cb with buffer := some (blk.set cb.head x),
                                    head := (cb.head + 1) % cb.size,
                                    tail := (cb.tail + 1) % cb.size })
        else .ok (BUFFER_FULL, cb)
      else
        .ok (BUFFER_OK, { cb with buffer := some (blk.set cb.head x),
                                  head := (cb.head + 1) % cb.size }) := by
  obtain ⟨hh, ht⟩ := hR
  unfold CircularBuffer_Put
  rw [advance_ok hs hh, advance_ok hs ht]
  simp only [Put_store, hb]
  rw [writeSlot_ok x (by omega)]

/-- What `Get` does on a buffer whose `tail` indexes a slot of the storage. -/
theorem get_eval {cb : CircularBuffer} {blk : List BUFFER_TYPE} (d : BUFFER_TYPE)
    (hb : cb.buffer = some blk) (ht : cb.tail < blk.length) (h0 : 0 < cb.size) :
    CircularBuffer_Get cb d =
      if cb.head = cb.tail then .ok (BUFFER_EMPTY, cb, d)
      else .ok (BUFFER_OK, { cb with tail := addSz cb.tail 1 % cb.size }, blk[cb.tail]) := by
  unfold CircularBuffer_Get
  rw [hb, readSlot_ok (List.getElem?_eq_getElem ht), modSz_ok h0]

/-- What `Peek` does on a buffer whose `tail` indexes a slot of the storage. -/
theorem peek_eval {cb : CircularBuffer} {blk : List BUFFER_TYPE} (d : BUFFER_TYPE)
    (hb : cb.buffer = some blk) (ht : cb.tail < blk.length) :
    CircularBuffer_Peek cb d =
      if cb.head = cb.tail then .ok (false, cb, d) else .ok (true, cb, blk[cb.tail]) := by
  unfold CircularBuffer_Peek
  rw [hb, readSlot_ok (List.getElem?_eq_getElem ht)]

theorem status_ne : BUFFER_OK ≠ BUFFER_FULL ∧ BUFFER_OK ≠ BUFFER_EMPTY ∧
    BUFFER_FULL ≠ BUFFER_EMPTY := by
  simp [BUFFER_OK, BUFFER_FULL, BUFFER_EMPTY]

/-- C3 (Put fails exactly when full and overwrite is disabled, atomically). For
every buffer whose storage has `size` slots and whose cursors are in range (so
`size` is at least 1): `Put` returns `BUFFER_FULL` if and only if overwrite is
off and `(head + 1) % size = tail`; in that case the whole buffer, storage
included, is unchanged; in every other case `Put` returns `BUFFER_OK`; and no
status other than these two is returned. -/
theorem C3_put_full_iff (cb : CircularBuffer) (x : BUFFER_TYPE)
    (hA : Allocated cb) (hR : InRange cb) :
    ((∃ cb1, CircularBuffer_Put cb x = .ok (BUFFER_FULL, cb1)) ↔
      (cb.overwrite = false ∧ (cb.head + 1) % cb.size = cb.tail)) ∧
    ((cb.overwrite = false ∧ (cb.head + 1) % cb.size = cb.tail) →
      CircularBuffer_Put cb x = .ok (BUFFER_FULL, cb)) ∧
    (¬ (cb.overwrite = false ∧ (cb.head + 1) % cb.size = cb.tail) →
      ∃ cb1, CircularBuffer_Put cb x = .ok (BUFFER_OK, cb1)) ∧
    (∀ st cb1, CircularBuffer_Put cb x = .ok (st, cb1) →
      st = BUFFER_OK ∨ st = BUFFER_FULL) := by
  obtain ⟨blk, hb, hl⟩ := allocated_block hA
  have hput := put_eval x hA.1 hb hl hR
  have hne := status_ne.1
  by_cases hfull : (cb.head + 1) % cb.size = cb.tail
  · cases ho : cb.overwrite with
    | false =>
      simp only [hfull, ho, if_true] at hput
      simp [hput, hfull]
    | true =>
      simp only [hfull, ho, if_true] at hput
      simp [hput, hfull, hne]
  · simp only [hfull, if_false] at hput
    simp [hput, hfull, hne]

/-- Witness of C3: `Put` on a full capacity-4 buffer without overwrite. -/
theorem C3_put_full_iff_witness :
    (Allocated fullBuffer ∧ InRange fullBuffer) ∧
    ((∃ cb1, CircularBuffer_Put fullBuffer 99 = .ok (BUFFER_FULL, cb1)) ↔
      (fullBuffer.overwrite = false ∧
        (fullBuffer.head + 1) % fullBuffer.size = fullBuffer.tail)) ∧
    ((fullBuffer.overwrite = false ∧
        (fullBuffer.head + 1) % fullBuffer.size = fullBuffer.tail) →
      CircularBuffer_Put fullBuffer 99 = .ok (BUFFER_FULL, fullBuffer)) ∧
    (¬ (fullBuffer.overwrite = false ∧
        (fullBuffer.head + 1) % fullBuffer.size = fullBuffer.tail) →
      ∃ cb1, CircularBuffer_Put fullBuffer 99 = .ok (BUFFER_OK, cb1)) ∧
    (∀ st cb1, CircularBuffer_Put fullBuffer 99 = .ok (st, cb1) →
      st = BUFFER_OK ∨ st = BUFFER_FULL) :=
  ⟨by decide, C3_put_full_iff fullBuffer 99 (by decide) (by decide)⟩

/-- C4 (Get fails exactly when empty, atomically). For every state: `Get`
returns `BUFFER_EMPTY` if and only if `head = tail`; in that case the buffer
(`head`, `tail`, `size`, `overwrite` and the storage) and the output byte are
unchanged; and a status that `Get` returns is `BUFFER_EMPTY` or `BUFFER_OK`. For
every state of the data model, that is, storage of `size` slots and cursors in
range, as every buffer has that a successful `CircularBuffer_Init` and any
calls produce: `Get` returns `BUFFER_OK` whenever `head ≠ tail`. -/
theorem C4_get_empty_iff (cb : CircularBuffer) (d : BUFFER_TYPE) :
    ((∃ cb1 d1, CircularBuffer_Get cb d = .ok (BUFFER_EMPTY, cb1, d1)) ↔
      cb.head = cb.tail) ∧
    (cb.head = cb.tail → CircularBuffer_Get cb d = .ok (BUFFER_EMPTY, cb, d)) ∧
    (∀ st cb1 d1, CircularBuffer_Get cb d = .ok (st, cb1, d1) →
      st = BUFFER_EMPTY ∨ st = BUFFER_OK) ∧
    (Allocated cb → InRange cb → cb.head ≠ cb.tail →
      ∃ cb1 d1, CircularBuffer_Get cb d = .ok (BUFFER_OK, cb1, d1)) := by
  have hne := status_ne.2.1
  refine ⟨?_, ?_, ?_, ?_⟩
  · constructor
    · rintro ⟨cb1, d1, h⟩
      by_contra hc
      unfold CircularBuffer_Get at h
      rw [if_neg hc] at h
      cases hr : readSlot cb.buffer cb.tail with
      | error f => simp [hr] at h
      | ok v =>
        cases hm : modSz (addSz cb.tail 1) cb.size with
        | error f => simp [hr, hm] at h
        | ok t => simp [hr, hm, hne] at h
    · intro he
      exact ⟨cb, d, by simp [CircularBuffer_Get, he]⟩
  · intro he
    simp [CircularBuffer_Get, he]
  · intro st cb1 d1 h
    unfold CircularBuffer_Get at h
    split at h
    · simp only [Except.ok.injEq, Prod.mk.injEq] at h
      exact Or.inl h.1.symm
    · cases hr : readSlot cb.buffer cb.tail with
      | error f => simp [hr] at h
      | ok v =>
        cases hm : modSz (addSz cb.tail 1) cb.size with
        | error f => simp [hr, hm] at h
        | ok t =>
          simp only [hr, hm, Except.ok.injEq, Prod.mk.injEq] at h
          exact Or.inr h.1.symm
  · intro hA hR hc
    obtain ⟨blk, hb, hl⟩ := allocated_block hA
    have ht : cb.tail < blk.length := by rw [hl]; exact hR.2
    rw [get_eval d hb ht (by have := hR.2; omega), if_neg hc]
    exact ⟨_, _, rfl⟩

/-- Witness of C4: `Get` on a capacity-4 buffer that stores two elements. -/
theorem C4_get_empty_iff_witness :
    (Allocated twoStored ∧ InRange twoStored ∧ twoStored.head ≠ twoStored.tail) ∧
    ∃ cb1 d1, CircularBuffer_Get twoStored 0 = .ok (BUFFER_OK, cb1, d1) :=
  ⟨by decide, (C4_get_empty_iff twoStored 0).2.2.2 (by decide) (by decide) (by decide)⟩

/-- Repeated `Peek` calls on a non-empty buffer all deliver the slot at `tail`. -/
theorem peekN_eval {cb : CircularBuffer} {blk : List BUFFER_TYPE}
    (hb : cb.buffer = some blk) (ht : cb.tail < blk.length) (hne : cb.head ≠ cb.tail)
    (n : Nat) : ∀ d : BUFFER_TYPE,
    peekN cb d (n + 1) = .ok (List.replicate (n + 1) (true, blk[cb.tail]), cb, blk[cb.tail]) := by
  induction n with
  | zero => intro d; simp [peekN, peek_eval d hb ht, hne]
  | succ n ih =>
    intro d
    rw [peekN, peek_eval d hb ht, if_neg hne]
    simp only [ih, List.replicate_succ]

/-- C7 (Peek is non-destructive and agrees with Get). On every empty state
`Peek` returns false and leaves the buffer and the output byte as they were. On
every non-empty state whose storage has `size` slots and whose cursors are in
range, `Peek` returns true with some byte `v` and leaves the buffer, storage
included, as it was (so the count is unchanged); any positive number of `Peek`
calls in a row all return true with the same `v`; and the next `Get` returns
`BUFFER_OK` with the same `v`. -/
theorem C7_peek_nondestructive (cb : CircularBuffer) (d : BUFFER_TYPE) :
    (cb.head = cb.tail → CircularBuffer_Peek cb d = .ok (false, cb, d)) ∧
    (Allocated cb → InRange cb → cb.head ≠ cb.tail →
      ∃ v cb1,
        CircularBuffer_Peek cb d = .ok (true, cb, v) ∧
        (∀ n, peekN cb d (n + 1) = .ok (List.replicate (n + 1) (true, v), cb, v)) ∧
        (∀ d1, CircularBuffer_Get cb d1 = .ok (BUFFER_OK, cb1, v))) := by
  constructor
  · intro he
    simp [CircularBuffer_Peek, he]
  · intro hA hR hne
    obtain ⟨blk, hb, hl⟩ := allocated_block hA
    have ht : cb.tail < blk.length := by rw [hl]; exact hR.2
    refine ⟨blk[cb.tail], { cb with tail := addSz cb.tail 1 % cb.size }, ?_, ?_, ?_⟩
    · rw [peek_eval d hb ht, if_neg hne]
    · intro n; exact peekN_eval hb ht hne n d
    · intro d1
      rw [get_eval d1 hb ht (by have := hR.2; omega), if_neg hne]

/-- Witness of C7: `Peek` on a capacity-4 buffer that stores two elements. -/
theorem C7_peek_nondestructive_witness :
    (Allocated twoStored ∧ InRange twoStored ∧ twoStored.head ≠ twoStored.tail) ∧
    ∃ v cb1,
      CircularBuffer_Peek twoStored 0 = .ok (true, twoStored, v) ∧
      (∀ n, peekN twoStored 0 (n + 1) = .ok (List.replicate (n + 1) (true, v), twoStored, v)) ∧
      (∀ d1, CircularBuffer_Get twoStored d1 = .ok (BUFFER_OK, cb1, v)) :=
  ⟨by decide, (C7_peek_nondestructive twoStored 0).2 (by decide) (by decide) (by decide)⟩

/-- C9 (empty/full disjointness). For every state with `size` at least 2,
whatever the cursors, `IsEmpty` and `IsFull` are not both true. -/
theorem C9_empty_full_disjoint (cb : CircularBuffer) (h2 : 2 ≤ cb.size) :
    ¬ (CircularBuffer_IsEmpty cb = true ∧ CircularBuffer_IsFull cb = .ok true) := by
  rintro ⟨he, hf⟩
  have he2 : cb.head = cb.tail := by simpa [CircularBuffer_IsEmpty] using he
  unfold CircularBuffer_IsFull at hf
  rw [modSz_ok (by omega)] at hf
  have hf2 : addSz cb.head 1 % cb.size = cb.head := by
    simp only [Except.ok.injEq, decide_eq_true_eq] at hf
    rw [hf, he2]
  have hlt : cb.head < cb.size := by rw [← hf2]; exact Nat.mod_lt _ (by omega)
  have hle : addSz cb.head 1 % cb.size ≤ addSz cb.head 1 := Nat.mod_le _ _
  have hM := SIZE_T_MOD_pos
  have hle2 : addSz cb.head 1 ≤ cb.head + 1 := Nat.mod_le _ _
  by_cases hw : cb.head + 1 < SIZE_T_MOD
  · rw [addSz_eq hw, advance_val hlt] at hf2
    split at hf2 <;> omega
  · have hx : addSz cb.head 1 = (cb.head + 1 - SIZE_T_MOD) % SIZE_T_MOD := by
      unfold addSz
      conv_lhs => rw [show cb.head + 1 = (cb.head + 1 - SIZE_T_MOD) + SIZE_T_MOD by omega]
      rw [Nat.add_mod_right]
    have hx2 : addSz cb.head 1 ≤ cb.head + 1 - SIZE_T_MOD := by
      rw [hx]; exact Nat.mod_le _ _
    have h264 : 2 ≤ SIZE_T_MOD := by unfold SIZE_T_MOD; norm_num
    omega

/-- Witness of C9: a full capacity-4 buffer is not empty. -/
theorem C9_empty_full_disjoint_witness :
    2 ≤ fullBuffer.size ∧
    ¬ (CircularBuffer_IsEmpty fullBuffer = true ∧ CircularBuffer_IsFull fullBuffer = .ok true) :=
  ⟨by decide, C9_empty_full_disjoint fullBuffer (by decide)⟩

/-- C10 (count formula). For every state with `size` a `size_t` value and both
cursors below `size` (so `size` is at least 1), the value of `CircularBuffer_Size` is
`(head - tail + size) mod size` computed over the integers, and each `size_t`
subtraction the code performs has the value of the integer subtraction, that
is, none wraps around: `head - tail` when `head ≥ tail`, and `tail - head` and
`size - (tail - head)` otherwise. -/
theorem C10_count_formula (cb : CircularBuffer) (hs : cb.size < SIZE_T_MOD)
    (hh : cb.head < cb.size) (ht : cb.tail < cb.size) :
    ((CircularBuffer_Size cb : Int) = ((cb.head : Int) - cb.tail + cb.size) % cb.size) ∧
    (cb.head ≥ cb.tail → (subSz cb.head cb.tail : Int) = (cb.head : Int) - cb.tail) ∧
    (¬ cb.head ≥ cb.tail →
      (subSz cb.tail cb.head : Int) = (cb.tail : Int) - cb.head ∧
      (subSz cb.size (subSz cb.tail cb.head) : Int)
        = (cb.size : Int) - ((cb.tail : Int) - cb.head)) := by
  by_cases hge : cb.head ≥ cb.tail
  · have e : subSz cb.head cb.tail = cb.head - cb.tail := subSz_eq (by omega) hge
    refine ⟨?_, fun _ => by rw [e]; omega, fun h => absurd hge h⟩
    rw [CircularBuffer_Size, if_pos hge, e, Int.add_emod_self,
      Int.emod_eq_of_lt (by omega) (by omega)]
    omega
  · have e1 : subSz cb.tail cb.head = cb.tail - cb.head := subSz_eq (by omega) (by omega)
    have e2 : subSz cb.size (cb.tail - cb.head) = cb.size - (cb.tail - cb.head) :=
      subSz_eq hs (by omega)
    refine ⟨?_, fun h => absurd h hge, fun _ => ⟨by rw [e1]; omega, by rw [e1, e2]; omega⟩⟩
    rw [CircularBuffer_Size, if_neg hge, e1, e2, Int.emod_eq_of_lt (by omega) (by omega)]
    omega

/-- Witness of C10: a capacity-4 buffer with `head` 0 and `tail` 2 holds 2 elements. -/
theorem C10_count_formula_witness :
    (twoStored.size < SIZE_T_MOD ∧ twoStored.head < twoStored.size ∧
      twoStored.tail < twoStored.size) ∧
    ((CircularBuffer_Size twoStored : Int)
        = ((twoStored.head : Int) - twoStored.tail + twoStored.size) % twoStored.size) ∧
    (twoStored.head ≥ twoStored.tail →
      (subSz twoStored.head twoStored.tail : Int) = (twoStored.head : Int) - twoStored.tail) ∧
    (¬ twoStored.head ≥ twoStored.tail →
      (subSz twoStored.tail twoStored.head : Int) = (twoStored.tail : Int) - twoStored.head ∧
      (subSz twoStored.size (subSz twoStored.tail twoStored.head) : Int)
        = (twoStored.size : Int) - ((twoStored.tail : Int) - twoStored.head)) :=
  ⟨by decide, C10_count_formula twoStored (by decide) (by decide) (by decide)⟩

/-! ## Invariants of an initialised buffer -/

/-- A successful `Init` with a `size_t` capacity of at least 1 yields a buffer
whose storage has `size` slots, with both cursors at 0. -/
theorem init_ok {malloc : Nat → Option (List BUFFER_TYPE)} (cb0 : CircularBuffer)
    {N : Nat} (ow : Bool) (hm : MallocOk malloc) (hN : N < SIZE_T_MOD)
    (hinit : (CircularBuffer_Init malloc cb0 N ow).1 = BUFFER_OK) :
    Allocated (CircularBuffer_Init malloc cb0 N ow).2 ∧
    (CircularBuffer_Init malloc cb0 N ow).2.size = N ∧
    (CircularBuffer_Init malloc cb0 N ow).2.head = 0 ∧
    (CircularBuffer_Init malloc cb0 N ow).2.tail = 0 ∧
    (CircularBuffer_Init malloc cb0 N ow).2.overwrite = ow := by
  have hmul : mulSz N 1 = N := by
    unfold mulSz; rw [Nat.mul_one, Nat.mod_eq_of_lt hN]
  unfold CircularBuffer_Init at hinit ⊢
  simp only [hmul] at hinit ⊢
  cases hal : malloc N with
  | none => simp [hal, BUFFER_ERROR, BUFFER_OK] at hinit
  | some blk =>
    have := hm N blk hal
    simp [hal, Allocated, hN, this]

/-- Every call on a well-formed buffer returns, and leaves a well-formed buffer
of the same capacity. -/
theorem step_wf {cb : CircularBuffer} (d : BUFFER_TYPE) (o : Op)
    (hA : Allocated cb) (hR : InRange cb) :
    ∃ cb1 d1, step (cb, d) o = .ok (cb1, d1) ∧ Allocated cb1 ∧ InRange cb1 ∧
      cb1.size = cb.size := by
  obtain ⟨blk, hb, hl⟩ := allocated_block hA
  obtain ⟨hs, hbm⟩ := hA
  have hh := hR.1
  have ht := hR.2
  cases o with
  | put x =>
    have hput := put_eval x hs hb hl hR
    have hA1 : ∀ h t, Allocated { cb with buffer := some (blk.set cb.head x), head := h, tail := t } := by
      intro h t; simp [Allocated, hs, hl]
    simp only [step]
    by_cases hfull : (cb.head + 1) % cb.size = cb.tail
    · by_cases ho : cb.overwrite = true
      · rw [if_pos hfull, if_pos ho] at hput
        rw [hput]
        exact ⟨_, d, rfl, hA1 _ _, ⟨advance_lt hh, advance_lt ht⟩, rfl⟩
      · rw [if_pos hfull, if_neg ho] at hput
        rw [hput]
        exact ⟨cb, d, rfl, ⟨hs, hbm⟩, hR, rfl⟩
    · rw [if_neg hfull] at hput
      rw [hput]
      exact ⟨_, d, rfl, hA1 _ _, ⟨advance_lt hh, ht⟩, rfl⟩
  | get =>
    have hget := get_eval d hb (by omega) (show 0 < cb.size by omega)
    simp only [step]
    rw [hget]
    by_cases he : cb.head = cb.tail
    · rw [if_pos he]; exact ⟨cb, d, rfl, ⟨hs, hbm⟩, hR, rfl⟩
    · rw [if_neg he]
      exact ⟨_, _, rfl, ⟨hs, hbm⟩, ⟨hh, Nat.mod_lt _ (by omega)⟩, rfl⟩
  | peek =>
    have hpeek := peek_eval d hb (show cb.tail < blk.length by omega)
    simp only [step]
    rw [hpeek]
    by_cases he : cb.head = cb.tail
    · rw [if_pos he]; exact ⟨cb, d, rfl, ⟨hs, hbm⟩, hR, rfl⟩
    · rw [if_neg he]; exact ⟨cb, _, rfl, ⟨hs, hbm⟩, hR, rfl⟩

/-- Every finite sequence of calls on a well-formed buffer returns, and leaves a
well-formed buffer of the same capacity. -/
theorem run_wf (ops : List Op) : ∀ {cb : CircularBuffer} (d : BUFFER_TYPE),
    Allocated cb → InRange cb →
    ∃ cb1 d1, run (cb, d) ops = .ok (cb1, d1) ∧ Allocated cb1 ∧ InRange cb1 ∧
      cb1.size = cb.size := by
  induction ops with
  | nil => intro cb d hA hR; exact ⟨cb, d, rfl, hA, hR, rfl⟩
  | cons o os ih =>
    intro cb d hA hR
    obtain ⟨cb1, d1, hstep, hA1, hR1, hs1⟩ := step_wf d o hA hR
    obtain ⟨cb2, d2, hrun, hA2, hR2, hs2⟩ := ih d1 hA1 hR1
    exact ⟨cb2, d2, by simp only [run, hstep, hrun], hA2, hR2, by rw [hs2, hs1]⟩

/-- The count of a well-formed buffer is below its capacity. -/
theorem size_lt {cb : CircularBuffer} (hA : Allocated cb) (hR : InRange cb) :
    CircularBuffer_Size cb < cb.size := by
  obtain ⟨hs, _⟩ := hA
  obtain ⟨hh, ht⟩ := hR
  unfold CircularBuffer_Size
  split
  · next hge => rw [subSz_eq (by omega) hge]; omega
  · next hlt =>
    have e1 : subSz cb.tail cb.head = cb.tail - cb.head := subSz_eq (by omega) (by omega)
    rw [e1, subSz_eq hs (by omega)]; omega

/-- C6 (capacity bound). For every capacity `N` at least 1, either overwrite
setting and every finite sequence of `Put`/`Get`/`Peek` calls on a buffer
produced by a successful `CircularBuffer_Init`: the calls all return, and
`CircularBuffer_Size` is at most `N - 1` afterwards. As the sequence is
arbitrary, the bound holds after every call. -/
theorem C6_capacity_bound (malloc : Nat → Option (List BUFFER_TYPE)) (cb0 : CircularBuffer)
    (N : Nat) (ow : Bool) (d : BUFFER_TYPE) (ops : List Op)
    (hm : MallocOk malloc) (hN1 : 1 ≤ N) (hN : N < SIZE_T_MOD)
    (hinit : (CircularBuffer_Init malloc cb0 N ow).1 = BUFFER_OK) :
    ∃ cb d1, run ((CircularBuffer_Init malloc cb0 N ow).2, d) ops = .ok (cb, d1) ∧
      CircularBuffer_Size cb ≤ N - 1 := by
  obtain ⟨hA, hsz, hh, ht, _⟩ := init_ok cb0 ow hm hN hinit
  have hR : InRange (CircularBuffer_Init malloc cb0 N ow).2 := by
    unfold InRange; rw [hh, ht, hsz]; omega
  obtain ⟨cb, d1, hrun, hA1, hR1, hs1⟩ := run_wf ops d hA hR
  refine ⟨cb, d1, hrun, ?_⟩
  have := size_lt hA1 hR1
  rw [hs1, hsz] at this
  omega

theorem zeroMalloc_ok : MallocOk zeroMalloc := by
  intro n blk h
  simp only [zeroMalloc, Option.some.injEq] at h
  rw [← h, List.length_replicate]

/-- Witness of C6: a capacity-3 buffer, three `Put` calls, a `Peek` and two `Get` calls. -/
theorem C6_capacity_bound_witness :
    (MallocOk zeroMalloc ∧ 1 ≤ 3 ∧ 3 < SIZE_T_MOD ∧
      (CircularBuffer_Init zeroMalloc rawBuffer 3 false).1 = BUFFER_OK) ∧
    ∃ cb d1,
      run ((CircularBuffer_Init zeroMalloc rawBuffer 3 false).2, 0)
        [Op.put 1, Op.put 2, Op.put 3, Op.peek, Op.get, Op.get] = .ok (cb, d1) ∧
      CircularBuffer_Size cb ≤ 3 - 1 :=
  ⟨⟨zeroMalloc_ok, by decide, by decide, rfl⟩,
    C6_capacity_bound zeroMalloc rawBuffer 3 false 0
      [Op.put 1, Op.put 2, Op.put 3, Op.peek, Op.get, Op.get]
      zeroMalloc_ok (by decide) (by decide) rfl⟩

/-- C8 (cursor range invariant). For every capacity `N` at least 1 and every
finite sequence of `Put`/`Get`/`Peek` calls on a buffer produced by a
successful `CircularBuffer_Init`: no call faults (so no storage access is
outside the block and no remainder is taken modulo zero), and afterwards
`head < N`, `tail < N`, `size = N` and the storage still has `N` slots. As the
sequence is arbitrary, this holds after every call. -/
theorem C8_cursor_range (malloc : Nat → Option (List BUFFER_TYPE)) (cb0 : CircularBuffer)
    (N : Nat) (ow : Bool) (d : BUFFER_TYPE) (ops : List Op)
    (hm : MallocOk malloc) (hN1 : 1 ≤ N) (hN : N < SIZE_T_MOD)
    (hinit : (CircularBuffer_Init malloc cb0 N ow).1 = BUFFER_OK) :
    ∃ cb d1, run ((CircularBuffer_Init malloc cb0 N ow).2, d) ops = .ok (cb, d1) ∧
      cb.head < N ∧ cb.tail < N ∧ cb.size = N ∧ cb.buffer.map List.length = some N := by
  obtain ⟨hA, hsz, hh, ht, _⟩ := init_ok cb0 ow hm hN hinit
  have hR : InRange (CircularBuffer_Init malloc cb0 N ow).2 := by
    unfold InRange; rw [hh, ht, hsz]; omega
  obtain ⟨cb, d1, hrun, hA1, hR1, hs1⟩ := run_wf ops d hA hR
  rw [hsz] at hs1
  refine ⟨cb, d1, hrun, ?_, ?_, hs1, ?_⟩
  · rw [← hs1]; exact hR1.1
  · rw [← hs1]; exact hR1.2
  · rw [← hs1]; exact hA1.2

/-- Witness of C8: a capacity-3 buffer with overwrite, four `Put` calls around a `Get`. -/
theorem C8_cursor_range_witness :
    (MallocOk zeroMalloc ∧ 1 ≤ 3 ∧ 3 < SIZE_T_MOD ∧
      (CircularBuffer_Init zeroMalloc rawBuffer 3 true).1 = BUFFER_OK) ∧
    ∃ cb d1,
      run ((CircularBuffer_Init zeroMalloc rawBuffer 3 true).2, 0)
        [Op.put 1, Op.put 2, Op.put 3, Op.get, Op.put 4, Op.peek] = .ok (cb, d1) ∧
      cb.head < 3 ∧ cb.tail < 3 ∧ cb.size = 3 ∧ cb.buffer.map List.length = some 3 :=
  ⟨⟨zeroMalloc_ok, by decide, by decide, rfl⟩,
    C8_cursor_range zeroMalloc rawBuffer 3 true 0
      [Op.put 1, Op.put 2, Op.put 3, Op.get, Op.put 4, Op.peek]
      zeroMalloc_ok (by decide) (by decide) rfl⟩

/-! ## Construction -/

/-- C11 (construction yields an empty buffer). `CircularBuffer_Init` returns
only `BUFFER_OK` or `BUFFER_ERROR`; and whenever it returns `BUFFER_OK`, the
buffer has `head = 0`, `tail = 0`, the requested `size` and `overwrite`, so
`IsEmpty` is true, `CircularBuffer_Size` is 0, `Get` returns `BUFFER_EMPTY` and
`Peek` returns false (both leaving the buffer and the output byte as they were). -/
theorem C11_init_empty (malloc : Nat → Option (List BUFFER_TYPE)) (cb0 : CircularBuffer)
    (size : Nat) (ow : Bool) (d : BUFFER_TYPE) :
    ((CircularBuffer_Init malloc cb0 size ow).1 = BUFFER_OK ∨
      (CircularBuffer_Init malloc cb0 size ow).1 = BUFFER_ERROR) ∧
    ((CircularBuffer_Init malloc cb0 size ow).1 = BUFFER_OK →
      (CircularBuffer_Init malloc cb0 size ow).2.head = 0 ∧
      (CircularBuffer_Init malloc cb0 size ow).2.tail = 0 ∧
      (CircularBuffer_Init malloc cb0 size ow).2.size = size ∧
      (CircularBuffer_Init malloc cb0 size ow).2.overwrite = ow ∧
      CircularBuffer_IsEmpty (CircularBuffer_Init malloc cb0 size ow).2 = true ∧
      CircularBuffer_Size (CircularBuffer_Init malloc cb0 size ow).2 = 0 ∧
      CircularBuffer_Get (CircularBuffer_Init malloc cb0 size ow).2 d =
        .ok (BUFFER_EMPTY, (CircularBuffer_Init malloc cb0 size ow).2, d) ∧
      CircularBuffer_Peek (CircularBuffer_Init malloc cb0 size ow).2 d =
        .ok (false, (CircularBuffer_Init malloc cb0 size ow).2, d)) := by
  have hM := SIZE_T_MOD_pos
  have hsub : subSz 0 0 = 0 := by
    unfold subSz
    rw [Nat.zero_mod, Nat.zero_add, Nat.sub_zero, Nat.mod_self]
  unfold CircularBuffer_Init
  cases hal : malloc (mulSz size 1) with
  | none => simp [BUFFER_ERROR, BUFFER_OK]
  | some blk =>
    simp [CircularBuffer_IsEmpty, CircularBuffer_Size, CircularBuffer_Get,
      CircularBuffer_Peek, hsub]

/-- Witness of C11: `CircularBuffer_Init(&testBuffer, 10, false)` on a zero-filled block. -/
theorem C11_init_empty_witness :
    (CircularBuffer_Init zeroMalloc rawBuffer 10 false).1 = BUFFER_OK ∧
    (CircularBuffer_Init zeroMalloc rawBuffer 10 false).2.head = 0 ∧
    (CircularBuffer_Init zeroMalloc rawBuffer 10 false).2.tail = 0 ∧
    (CircularBuffer_Init zeroMalloc rawBuffer 10 false).2.size = 10 ∧
    (CircularBuffer_Init zeroMalloc rawBuffer 10 false).2.overwrite = false ∧
    CircularBuffer_IsEmpty (CircularBuffer_Init zeroMalloc rawBuffer 10 false).2 = true ∧
    CircularBuffer_Size (CircularBuffer_Init zeroMalloc rawBuffer 10 false).2 = 0 ∧
    CircularBuffer_Get (CircularBuffer_Init zeroMalloc rawBuffer 10 false).2 0 =
      .ok (BUFFER_EMPTY, (CircularBuffer_Init zeroMalloc rawBuffer 10 false).2, 0) ∧
    CircularBuffer_Peek (CircularBuffer_Init zeroMalloc rawBuffer 10 false).2 0 =
      .ok (false, (CircularBuffer_Init zeroMalloc rawBuffer 10 false).2, 0) :=
  ⟨rfl, (C11_init_empty zeroMalloc rawBuffer 10 false 0).2 rfl⟩

/-- C12 as stated fails: when `malloc(0)` returns a block and not `NULL`,
`CircularBuffer_Init` with `size` 0 returns `BUFFER_OK`, not `BUFFER_ERROR`, and
hands out a buffer with `size` 0, on which `Put` and `IsFull` take a remainder
modulo zero. -/
theorem C12_counterexample :
    CircularBuffer_Init zeroMalloc rawBuffer 0 false = (BUFFER_OK, zeroCapacity) ∧
    (CircularBuffer_Init zeroMalloc rawBuffer 0 false).1 ≠ BUFFER_ERROR ∧
    CircularBuffer_Put zeroCapacity 65 = .error Fault.divByZero ∧
    CircularBuffer_IsFull zeroCapacity = .error Fault.divByZero :=
  ⟨rfl, by decide, rfl, rfl⟩

/-- C12, amended (zero capacity). `CircularBuffer_Init` with `size` 0 returns
`BUFFER_ERROR` if and only if the allocation returns `NULL`. When the
allocation returns a block, it returns `BUFFER_OK` and hands out a buffer with
`size` 0 and both cursors at 0, on which `Put` and `IsFull` take a remainder
modulo zero. -/
theorem C12_zero_capacity (malloc : Nat → Option (List BUFFER_TYPE)) (cb0 : CircularBuffer)
    (ow : Bool) :
    ((CircularBuffer_Init malloc cb0 0 ow).1 = BUFFER_ERROR ↔ malloc 0 = none) ∧
    (∀ blk, malloc 0 = some blk →
      CircularBuffer_Init malloc cb0 0 ow =
        (BUFFER_OK, { buffer := some blk, head := 0, tail := 0, size := 0, overwrite := ow }) ∧
      (∀ x, CircularBuffer_Put
          { buffer := some blk, head := 0, tail := 0, size := 0, overwrite := ow } x =
        .error Fault.divByZero) ∧
      CircularBuffer_IsFull
          { buffer := some blk, head := 0, tail := 0, size := 0, overwrite := ow } =
        .error Fault.divByZero) := by
  have hmul : mulSz 0 1 = 0 := rfl
  unfold CircularBuffer_Init
  rw [hmul]
  cases hal : malloc 0 with
  | none => simp
  | some blk =>
    simp [BUFFER_OK, BUFFER_ERROR, CircularBuffer_Put, CircularBuffer_IsFull, modSz]

/-- Witness of C12: `CircularBuffer_Init` with `size` 0 on an allocator that
hands out a block of no elements. -/
theorem C12_zero_capacity_witness :
    zeroMalloc 0 = some [] ∧
    CircularBuffer_Init zeroMalloc rawBuffer 0 false =
      (BUFFER_OK, { buffer := some [], head := 0, tail := 0, size := 0, overwrite := false }) ∧
    (∀ x, CircularBuffer_Put
        { buffer := some [], head := 0, tail := 0, size := 0, overwrite := false } x =
      .error Fault.divByZero) ∧
    CircularBuffer_IsFull
        { buffer := some [], head := 0, tail := 0, size := 0, overwrite := false } =
      .error Fault.divByZero :=
  ⟨rfl, (C12_zero_capacity zeroMalloc rawBuffer false).2 [] rfl⟩

/-! ## The logical contents -/

/-- The count of a buffer with cursors in range, without the `size_t` wrapping. -/
theorem size_val {cb : CircularBuffer} (hs : cb.size < SIZE_T_MOD) (hR : InRange cb) :
    CircularBuffer_Size cb =
      if cb.head ≥ cb.tail then cb.head - cb.tail else cb.size - (cb.tail - cb.head) := by
  obtain ⟨hh, ht⟩ := hR
  unfold CircularBuffer_Size
  split
  · next hge => rw [subSz_eq (by omega) hge]
  · next hlt =>
    have e1 : subSz cb.tail cb.head = cb.tail - cb.head := subSz_eq (by omega) (by omega)
    rw [e1, subSz_eq hs (by omega)]

/-- A buffer that stores the queue `q` has `q` as its logical contents. -/
theorem holds_contents {cb : CircularBuffer} {q : List BUFFER_TYPE} (h : Holds cb q) :
    contents cb = q := by
  have hsz := size_of_holds h
  obtain ⟨_, _, _, _, blk, hb, _, hslots⟩ := h
  unfold contents
  rw [hsz, hb]
  apply List.ext_getElem
  · simp
  · intro i h1 h2
    have hi : i < q.length := h2
    simp only [List.getElem_map, List.getElem_range, Option.getD_some]
    rw [hslots i hi, List.getElem?_eq_getElem hi, Option.getD_some]

/-- A well-formed buffer stores its logical contents. -/
theorem contents_holds {cb : CircularBuffer} (hA : Allocated cb) (hR : InRange cb) :
    Holds cb (contents cb) := by
  have hlt := size_lt hA hR
  have hval := size_val hA.1 hR
  obtain ⟨blk, hb, hl⟩ := allocated_block hA
  obtain ⟨hh, ht⟩ := hR
  have hlen : (contents cb).length = CircularBuffer_Size cb := by simp [contents]
  refine ⟨hA.1, ht, by rw [hlen]; exact hlt, ?_, blk, hb, hl, ?_⟩
  · rw [hlen, wrap_add ht hlt, hval]
    split <;> split <;> omega
  · intro i hi
    rw [hlen] at hi
    have hidx : (cb.tail + i) % cb.size < blk.length := by
      rw [hl]; exact Nat.mod_lt _ (by omega)
    rw [List.getElem?_eq_getElem (show i < (contents cb).length by rw [hlen]; exact hi)]
    simp only [contents, List.getElem_map, List.getElem_range, hb, Option.getD_some]
    rw [List.getElem?_eq_getElem hidx, Option.getD_some]

/-- The logical contents have `CircularBuffer_Size` many elements. -/
theorem contents_length (cb : CircularBuffer) :
    (contents cb).length = CircularBuffer_Size cb := by
  simp [contents]

/-- In a buffer that stores `q`, the advanced `head` meets `tail` exactly when
`q` has `size - 1` elements. -/
theorem full_iff_count {cb : CircularBuffer} {q : List BUFFER_TYPE} (h : Holds cb q) :
    (cb.head + 1) % cb.size = cb.tail ↔ q.length + 1 = cb.size := by
  constructor
  · intro hf
    by_contra hne
    obtain ⟨_, ht, hq, hh, _⟩ := h
    rw [hh, slot_succ ht hq] at hf
    have := slot_ne ht (show q.length + 1 < cb.size by omega) (show 0 < cb.size by omega)
      (by omega)
    simp only [Nat.add_zero, Nat.mod_eq_of_lt ht] at this
    exact this hf
  · exact full_next h

/-- `IsFull` on a buffer whose `head` is in range. -/
theorem isFull_eval {cb : CircularBuffer} (hs : cb.size < SIZE_T_MOD)
    (hh : cb.head < cb.size) :
    CircularBuffer_IsFull cb = .ok (decide ((cb.head + 1) % cb.size = cb.tail)) := by
  unfold CircularBuffer_IsFull
  rw [advance_ok hs hh]

/-- C13 (Put on a buffer that is not full). For every state whose storage has
`size` slots, with cursors in range and `(head + 1) % size ≠ tail` (so `size` is
at least 2), in either overwrite setting: `Put x` returns `BUFFER_OK`; the
storage afterwards is the old one with `x` at slot `head` and every other slot
as before; `head` becomes `(head + 1) % size`; `tail`, `size` and `overwrite`
are unchanged; `CircularBuffer_Size` grows by exactly 1; and the logical
contents are the old ones with `x` appended. -/
theorem C13_put_not_full (cb : CircularBuffer) (x : BUFFER_TYPE)
    (hA : Allocated cb) (hR : InRange cb) (hnf : (cb.head + 1) % cb.size ≠ cb.tail) :
    ∃ blk cb1,
      cb.buffer = some blk ∧
      CircularBuffer_Put cb x = .ok (BUFFER_OK, cb1) ∧
      cb1.buffer = some (blk.set cb.head x) ∧
      (blk.set cb.head x)[cb.head]? = some x ∧
      (∀ i, i ≠ cb.head → (blk.set cb.head x)[i]? = blk[i]?) ∧
      cb1.head = (cb.head + 1) % cb.size ∧
      cb1.tail = cb.tail ∧ cb1.size = cb.size ∧ cb1.overwrite = cb.overwrite ∧
      CircularBuffer_Size cb1 = CircularBuffer_Size cb + 1 ∧
      contents cb1 = contents cb ++ [x] := by
  obtain ⟨blk, hb, hl⟩ := allocated_block hA
  have hput := put_eval x hA.1 hb hl hR
  rw [if_neg hnf] at hput
  have hq := contents_holds hA hR
  have hroom : (contents cb).length + 1 < cb.size := by
    have h1 : (contents cb).length < cb.size := hq.2.2.1
    have h2 := (full_iff_count hq).not.mp hnf
    omega
  obtain ⟨cb1, hput1, h1, _⟩ := put_append x hq hroom
  rw [hput] at hput1
  simp only [Except.ok.injEq, Prod.mk.injEq, true_and] at hput1
  subst hput1
  refine ⟨blk, _, hb, hput, rfl, ?_, ?_, rfl, rfl, rfl, rfl, ?_, holds_contents h1⟩
  · exact List.getElem?_set_self (by rw [hl]; exact hR.1)
  · intro i hi
    exact List.getElem?_set_ne (Ne.symm hi)
  · rw [size_of_holds h1, ← contents_length cb]
    simp

/-- Witness of C13: `Put` on a capacity-4 buffer that stores two elements. -/
theorem C13_put_not_full_witness :
    (Allocated twoStored ∧ InRange twoStored ∧
      (twoStored.head + 1) % twoStored.size ≠ twoStored.tail) ∧
    ∃ blk cb1,
      twoStored.buffer = some blk ∧
      CircularBuffer_Put twoStored 99 = .ok (BUFFER_OK, cb1) ∧
      cb1.buffer = some (blk.set twoStored.head 99) ∧
      (blk.set twoStored.head 99)[twoStored.head]? = some 99 ∧
      (∀ i, i ≠ twoStored.head → (blk.set twoStored.head 99)[i]? = blk[i]?) ∧
      cb1.head = (twoStored.head + 1) % twoStored.size ∧
      cb1.tail = twoStored.tail ∧ cb1.size = twoStored.size ∧
      cb1.overwrite = twoStored.overwrite ∧
      CircularBuffer_Size cb1 = CircularBuffer_Size twoStored + 1 ∧
      contents cb1 = contents twoStored ++ [99] :=
  ⟨by decide, C13_put_not_full twoStored 99 (by decide) (by decide) (by decide)⟩

/-- C14 (Get on a non-empty buffer). For every state whose storage has `size`
slots, with cursors in range and `head ≠ tail` (so `size` is at least 2): `Get`
returns `BUFFER_OK` and delivers the slot at the old `tail`; `tail` becomes
`(tail + 1) % size` and nothing else changes; `CircularBuffer_Size` drops by
exactly 1; and the logical contents are the old ones without their first
(oldest) element, which is the delivered byte. -/
theorem C14_get_non_empty (cb : CircularBuffer) (d : BUFFER_TYPE)
    (hA : Allocated cb) (hR : InRange cb) (hne : cb.head ≠ cb.tail) :
    ∃ blk v cb1,
      cb.buffer = some blk ∧ blk[cb.tail]? = some v ∧
      CircularBuffer_Get cb d = .ok (BUFFER_OK, cb1, v) ∧
      cb1 = { cb with tail := (cb.tail + 1) % cb.size } ∧
      CircularBuffer_Size cb1 + 1 = CircularBuffer_Size cb ∧
      contents cb = v :: contents cb1 ∧
      contents cb1 = (contents cb).tail := by
  obtain ⟨blk, hb, hl⟩ := allocated_block hA
  have ht : cb.tail < blk.length := by rw [hl]; exact hR.2
  have hget := get_eval d hb ht (show 0 < cb.size by have := hR.2; omega)
  rw [if_neg hne, addSz_eq (by have := hA.1; have := hR.2; omega)] at hget
  have hq := contents_holds hA hR
  cases hc : contents cb with
  | nil =>
    rw [hc] at hq
    obtain ⟨_, ht2, _, hh, _⟩ := hq
    simp only [List.length_nil, Nat.add_zero, Nat.mod_eq_of_lt ht2] at hh
    exact absurd hh hne
  | cons a q =>
    rw [hc] at hq
    obtain ⟨cb1, hget1, h1, _⟩ := get_cons d hq
    rw [hget] at hget1
    simp only [Except.ok.injEq, Prod.mk.injEq, true_and] at hget1
    obtain ⟨hcb, hv⟩ := hget1
    subst hcb
    have hs1 := size_of_holds h1
    have hs0 := size_of_holds hq
    have hc1 := holds_contents h1
    refine ⟨blk, a, _, hb, ?_, ?_, rfl, ?_, ?_, ?_⟩
    · rw [List.getElem?_eq_getElem ht, hv]
    · rw [hget, hv]
    · rw [hs1, hs0, List.length_cons]
    · rw [hc1]
    · rw [hc1, List.tail_cons]

/-- Witness of C14: `Get` on a capacity-4 buffer that stores two elements. -/
theorem C14_get_non_empty_witness :
    (Allocated twoStored ∧ InRange twoStored ∧ twoStored.head ≠ twoStored.tail) ∧
    ∃ blk v cb1,
      twoStored.buffer = some blk ∧ blk[twoStored.tail]? = some v ∧
      CircularBuffer_Get twoStored 0 = .ok (BUFFER_OK, cb1, v) ∧
      cb1 = { twoStored with tail := (twoStored.tail + 1) % twoStored.size } ∧
      CircularBuffer_Size cb1 + 1 = CircularBuffer_Size twoStored ∧
      contents twoStored = v :: contents cb1 ∧
      contents cb1 = (contents twoStored).tail :=
  ⟨by decide, C14_get_non_empty twoStored 0 (by decide) (by decide) (by decide)⟩

/-- C15 (single overwrite step). For every full state (storage of `size`
slots, cursors in range, `(head + 1) % size = tail`) of capacity at least 2
with overwrite enabled: `Put x` returns `BUFFER_OK`; `tail` becomes
`(tail + 1) % size` and `head` becomes `(head + 1) % size`; `x` is stored at
the old `head` slot; the buffer is full before and after, with
`CircularBuffer_Size` equal to `size - 1` both times; and the logical contents
are the old ones with the oldest element dropped and `x` appended. -/
theorem C15_overwrite_step (cb : CircularBuffer) (x : BUFFER_TYPE)
    (hN : 2 ≤ cb.size) (hA : Allocated cb) (hR : InRange cb)
    (hfull : (cb.head + 1) % cb.size = cb.tail) (ho : cb.overwrite = true) :
    ∃ blk cb1,
      cb.buffer = some blk ∧
      CircularBuffer_Put cb x = .ok (BUFFER_OK, cb1) ∧
      cb1 = { cb with
              buffer := some (blk.set cb.head x),
              head := (cb.head + 1) % cb.size,
              tail := (cb.tail + 1) % cb.size } ∧
      (blk.set cb.head x)[cb.head]? = some x ∧
      CircularBuffer_IsFull cb1 = .ok true ∧
      CircularBuffer_Size cb = cb.size - 1 ∧
      CircularBuffer_Size cb1 = cb.size - 1 ∧
      contents cb1 = (contents cb).tail ++ [x] := by
  obtain ⟨blk, hb, hl⟩ := allocated_block hA
  have hput := put_eval x hA.1 hb hl hR
  rw [if_pos hfull, if_pos ho] at hput
  have hq := contents_holds hA hR
  have hcount := (full_iff_count hq).mp hfull
  cases hc : contents cb with
  | nil => rw [hc] at hcount; simp only [List.length_nil] at hcount; omega
  | cons a q =>
    rw [hc] at hq hcount
    simp only [List.length_cons] at hcount
    obtain ⟨cb1, hput1, h1, hs1, _⟩ := put_full_evict x hq (by omega) ho
    rw [hput] at hput1
    simp only [Except.ok.injEq, Prod.mk.injEq, true_and] at hput1
    subst hput1
    have hcount1 : (q ++ [x]).length + 1 = cb.size := by
      simp only [List.length_append, List.length_singleton]; omega
    have hfull1 := full_next h1 hcount1
    have hsz0 := size_of_holds hq
    have hsz1 := size_of_holds h1
    refine ⟨blk, _, hb, hput, rfl, ?_, ?_, ?_, ?_, ?_⟩
    · exact List.getElem?_set_self (by rw [hl]; exact hR.1)
    · have hs2 := h1.1
      have hh2 := holds_head_lt h1
      rw [isFull_eval hs2 hh2]
      simp only [decide_eq_true_eq, Except.ok.injEq]
      exact hfull1
    · rw [hsz0, List.length_cons]; omega
    · rw [hsz1]; omega
    · rw [holds_contents h1, List.tail_cons]

/-- Witness of C15: `Put` on a full capacity-4 buffer with overwrite. -/
theorem C15_overwrite_step_witness :
    (2 ≤ fullOverwrite.size ∧ Allocated fullOverwrite ∧ InRange fullOverwrite ∧
      (fullOverwrite.head + 1) % fullOverwrite.size = fullOverwrite.tail ∧
      fullOverwrite.overwrite = true) ∧
    ∃ blk cb1,
      fullOverwrite.buffer = some blk ∧
      CircularBuffer_Put fullOverwrite 99 = .ok (BUFFER_OK, cb1) ∧
      cb1 = { fullOverwrite with
              buffer := some (blk.set fullOverwrite.head 99),
              head := (fullOverwrite.head + 1) % fullOverwrite.size,
              tail := (fullOverwrite.tail + 1) % fullOverwrite.size } ∧
      (blk.set fullOverwrite.head 99)[fullOverwrite.head]? = some 99 ∧
      CircularBuffer_IsFull cb1 = .ok true ∧
      CircularBuffer_Size fullOverwrite = fullOverwrite.size - 1 ∧
      CircularBuffer_Size cb1 = fullOverwrite.size - 1 ∧
      contents cb1 = (contents fullOverwrite).tail ++ [99] :=
  ⟨by decide, C15_overwrite_step fullOverwrite 99 (by decide) (by decide) (by decide)
    (by decide) (by decide)⟩

/-- Draining a buffer that stores `q`, call by call: `q.length` calls of `Get`
succeed and deliver `q`; the loop of `Process_Buffer` needs one more iteration
than that, and then ends in the same state. -/
theorem drain_steps (q : List BUFFER_TYPE) :
    ∀ {cb : CircularBuffer} (d : BUFFER_TYPE), Holds cb q →
    ∃ cb1 d1, Holds cb1 [] ∧ cb1.head = cb.head ∧
      getN cb d q.length = .ok (q.map (fun e => (BUFFER_OK, e)), cb1, d1) ∧
      (∀ fuel, q.length < fuel → Process_Buffer fuel cb d = some (.ok (q, cb1, d1))) ∧
      (∀ fuel, fuel ≤ q.length → Process_Buffer fuel cb d = none) := by
  induction q with
  | nil =>
    intro cb d h
    refine ⟨cb, d, h, rfl, rfl, ?_, ?_⟩
    · intro fuel hf
      obtain ⟨f, rfl⟩ : ∃ f, fuel = f + 1 := ⟨fuel - 1, by simp at hf; omega⟩
      simp [Process_Buffer, get_nil d h, BUFFER_EMPTY, BUFFER_OK]
    · intro fuel hf
      have : fuel = 0 := by simpa using hf
      subst this
      rfl
  | cons a q ih =>
    intro cb d h
    obtain ⟨cb1, hget, h1, _, _, hh1⟩ := get_cons d h
    obtain ⟨cb2, d2, h2, hh2, hn, hrun, hshort⟩ := ih a h1
    refine ⟨cb2, d2, h2, by rw [hh2, hh1], by simp [getN, hget, hn], ?_, ?_⟩
    · intro fuel hf
      simp only [List.length_cons] at hf
      obtain ⟨f, rfl⟩ : ∃ f, fuel = f + 1 := ⟨fuel - 1, by omega⟩
      simp [Process_Buffer, hget, hrun f (by omega)]
    · intro fuel hf
      simp only [List.length_cons] at hf
      cases fuel with
      | zero => rfl
      | succ f => simp [Process_Buffer, hget, hshort f (by omega)]

/-- C16 (draining terminates after exactly Count steps). For every state whose
storage has `size` slots and whose cursors are in range (so `size` is at least
1): the loop of `Process_Buffer` terminates, with every bound above
`CircularBuffer_Size` on its iterations and with no smaller one; exactly
`CircularBuffer_Size` calls of `Get` return `BUFFER_OK` (delivering the logical
contents in order) and the next one returns `BUFFER_EMPTY`; and the buffer is
left empty with `head` unchanged. -/
theorem C16_drain_terminates (cb : CircularBuffer) (d : BUFFER_TYPE)
    (hA : Allocated cb) (hR : InRange cb) :
    ∃ out cb1 d1,
      (∀ fuel, CircularBuffer_Size cb < fuel →
        Process_Buffer fuel cb d = some (.ok (out, cb1, d1))) ∧
      (∀ fuel, fuel ≤ CircularBuffer_Size cb → Process_Buffer fuel cb d = none) ∧
      out.length = CircularBuffer_Size cb ∧
      out = contents cb ∧
      getN cb d (CircularBuffer_Size cb) = .ok (out.map (fun e => (BUFFER_OK, e)), cb1, d1) ∧
      CircularBuffer_Get cb1 d1 = .ok (BUFFER_EMPTY, cb1, d1) ∧
      CircularBuffer_IsEmpty cb1 = true ∧
      cb1.head = cb.head := by
  have hq := contents_holds hA hR
  have hlen := contents_length cb
  obtain ⟨cb1, d1, h1, hh1, hn, hrun, hshort⟩ := drain_steps (contents cb) d hq
  rw [hlen] at hn hrun hshort
  refine ⟨contents cb, cb1, d1, hrun, hshort, hlen, rfl, hn, get_nil d1 h1, ?_, hh1⟩
  obtain ⟨_, ht, _, hhd, _⟩ := h1
  simp only [List.length_nil, Nat.add_zero, Nat.mod_eq_of_lt ht] at hhd
  simp [CircularBuffer_IsEmpty, hhd]

/-- Witness of C16: draining a capacity-4 buffer that stores two elements. -/
theorem C16_drain_terminates_witness :
    (Allocated twoStored ∧ InRange twoStored) ∧
    ∃ out cb1 d1,
      (∀ fuel, CircularBuffer_Size twoStored < fuel →
        Process_Buffer fuel twoStored 0 = some (.ok (out, cb1, d1))) ∧
      (∀ fuel, fuel ≤ CircularBuffer_Size twoStored → Process_Buffer fuel twoStored 0 = none) ∧
      out.length = CircularBuffer_Size twoStored ∧
      out = contents twoStored ∧
      getN twoStored 0 (CircularBuffer_Size twoStored) =
        .ok (out.map (fun e => (BUFFER_OK, e)), cb1, d1) ∧
      CircularBuffer_Get cb1 d1 = .ok (BUFFER_EMPTY, cb1, d1) ∧
      CircularBuffer_IsEmpty cb1 = true ∧
      cb1.head = twoStored.head :=
  ⟨by decide, C16_drain_terminates twoStored 0 (by decide) (by decide)⟩

/-- C17 (the predicates agree with the count). For every state with `size` a
`size_t` value and both cursors below `size` (so `size` is at least 1):
`IsEmpty` is true if and only if `CircularBuffer_Size` is 0, and `IsFull`
returns, with true if and only if `CircularBuffer_Size` is `size - 1`. -/
theorem C17_predicates_agree (cb : CircularBuffer) (hs : cb.size < SIZE_T_MOD)
    (hR : InRange cb) :
    (CircularBuffer_IsEmpty cb = true ↔ CircularBuffer_Size cb = 0) ∧
    ∃ b, CircularBuffer_IsFull cb = .ok b ∧
      (b = true ↔ CircularBuffer_Size cb = cb.size - 1) := by
  have hval := size_val hs hR
  obtain ⟨hh, ht⟩ := hR
  constructor
  · rw [hval]
    simp only [CircularBuffer_IsEmpty, decide_eq_true_eq]
    split <;> omega
  · refine ⟨_, isFull_eval hs hh, ?_⟩
    rw [hval, advance_val hh]
    simp only [decide_eq_true_eq]
    split <;> split <;> omega

/-- Witness of C17: a full capacity-4 buffer. -/
theorem C17_predicates_agree_witness :
    (fullBuffer.size < SIZE_T_MOD ∧ InRange fullBuffer) ∧
    (CircularBuffer_IsEmpty fullBuffer = true ↔ CircularBuffer_Size fullBuffer = 0) ∧
    ∃ b, CircularBuffer_IsFull fullBuffer = .ok b ∧
      (b = true ↔ CircularBuffer_Size fullBuffer = fullBuffer.size - 1) :=
  ⟨by decide, C17_predicates_agree fullBuffer (by decide) (by decide)⟩

/-! ## Which fields each call assigns -/

/-- Without the recorded targets, `CircularBuffer_Put_writes` is `CircularBuffer_Put`. -/
theorem Put_writes_erase (cb : CircularBuffer) (x : BUFFER_TYPE) :
    (CircularBuffer_Put_writes cb x).map (fun r => (r.1, r.2.1)) = CircularBuffer_Put cb x := by
  unfold CircularBuffer_Put_writes CircularBuffer_Put Put_store_writes Put_store
  cases modSz (addSz cb.head 1) cb.size with
  | error f => rfl
  | ok n =>
    simp only []
    split
    · split
      · cases modSz (addSz cb.tail 1) cb.size with
        | error f => rfl
        | ok t =>
          simp only []
          cases writeSlot cb.buffer cb.head x <;> rfl
      · rfl
    · cases writeSlot cb.buffer cb.head x <;> rfl

/-- Without the recorded targets, `CircularBuffer_Get_writes` is `CircularBuffer_Get`. -/
theorem Get_writes_erase (cb : CircularBuffer) (d : BUFFER_TYPE) :
    (CircularBuffer_Get_writes cb d).map (fun r => (r.1, r.2.1, r.2.2.1)) =
      CircularBuffer_Get cb d := by
  unfold CircularBuffer_Get_writes CircularBuffer_Get
  split
  · rfl
  · cases readSlot cb.buffer cb.tail with
    | error f => rfl
    | ok v =>
      simp only []
      cases modSz (addSz cb.tail 1) cb.size <;> rfl

/-- Without the recorded targets, `CircularBuffer_Peek_writes` is `CircularBuffer_Peek`. -/
theorem Peek_writes_erase (cb : CircularBuffer) (d : BUFFER_TYPE) :
    (CircularBuffer_Peek_writes cb d).map (fun r => (r.1, r.2.1, r.2.2.1)) =
      CircularBuffer_Peek cb d := by
  unfold CircularBuffer_Peek_writes CircularBuffer_Peek
  split
  · rfl
  · cases readSlot cb.buffer cb.tail <;> rfl

/-- The three ways in which `Put` returns: rejected on a full buffer without
overwrite, with no assignment; stored on a buffer that is not full, assigning
the slot at `head` and `head`; stored on a full buffer with overwrite,
assigning `tail` first. -/
theorem put_writes_cases {cb cb1 : CircularBuffer} {x : BUFFER_TYPE} {st : Int}
    {w : List Loc} (h : CircularBuffer_Put_writes cb x = .ok (st, cb1, w)) :
    cb1.size = cb.size ∧ cb1.overwrite = cb.overwrite ∧
    ((st = BUFFER_FULL ∧ cb1 = cb ∧ w = [] ∧ cb.overwrite = false ∧
        CircularBuffer_IsFull cb = .ok true) ∨
     (st = BUFFER_OK ∧ w = [Loc.slot cb.head, Loc.head] ∧ cb1.tail = cb.tail ∧
        CircularBuffer_IsFull cb = .ok false) ∨
     (st = BUFFER_OK ∧ w = [Loc.tail, Loc.slot cb.head, Loc.head] ∧ cb.overwrite = true ∧
        CircularBuffer_IsFull cb = .ok true)) := by
  unfold CircularBuffer_Put_writes at h
  unfold CircularBuffer_IsFull
  cases hm : modSz (addSz cb.head 1) cb.size with
  | error f => simp [hm] at h
  | ok n =>
    simp only [hm] at h ⊢
    by_cases hfull : n = cb.tail
    · rw [if_pos hfull] at h
      cases ho : cb.overwrite with
      | false =>
        simp only [ho, Bool.false_eq_true, if_false, Except.ok.injEq, Prod.mk.injEq] at h
        obtain ⟨rfl, rfl, rfl⟩ := h
        simp [hfull, ho]
      | true =>
        simp only [ho, if_true] at h
        cases hm2 : modSz (addSz cb.tail 1) cb.size with
        | error f => simp [hm2] at h
        | ok t =>
          simp only [hm2, Put_store_writes] at h
          cases hw : writeSlot cb.buffer cb.head x with
          | error f => simp [hw] at h
          | ok b =>
            simp only [hw, Except.ok.injEq, Prod.mk.injEq] at h
            obtain ⟨rfl, rfl, rfl⟩ := h
            simp [hfull, status_ne.1]
    · rw [if_neg hfull] at h
      simp only [Put_store_writes] at h
      cases hw : writeSlot cb.buffer cb.head x with
      | error f => simp [hw] at h
      | ok b =>
        simp only [hw, Except.ok.injEq, Prod.mk.injEq] at h
        obtain ⟨rfl, rfl, rfl⟩ := h
        simp [hfull]

/-- The two ways in which `Get` returns: `BUFFER_EMPTY` with no assignment, or
`BUFFER_OK` having assigned `*data` and `tail` only. -/
theorem get_writes_cases {cb cb1 : CircularBuffer} {d d1 : BUFFER_TYPE} {st : Int}
    {w : List Loc} (h : CircularBuffer_Get_writes cb d = .ok (st, cb1, d1, w)) :
    cb1.head = cb.head ∧ cb1.size = cb.size ∧ cb1.overwrite = cb.overwrite ∧
    cb1.buffer = cb.buffer ∧ (w = [] ∨ w = [Loc.data, Loc.tail]) := by
  unfold CircularBuffer_Get_writes at h
  split at h
  · simp only [Except.ok.injEq, Prod.mk.injEq] at h
    obtain ⟨_, rfl, _, rfl⟩ := h
    simp
  · cases hr : readSlot cb.buffer cb.tail with
    | error f => simp [hr] at h
    | ok v =>
      cases hm : modSz (addSz cb.tail 1) cb.size with
      | error f => simp [hr, hm] at h
      | ok t =>
        simp only [hr, hm, Except.ok.injEq, Prod.mk.injEq] at h
        obtain ⟨_, rfl, _, rfl⟩ := h
        simp

/-- The two ways in which `Peek` returns: false with no assignment, or true
having assigned `*data` only; the buffer is the same in both. -/
theorem peek_writes_cases {cb cb1 : CircularBuffer} {d d1 : BUFFER_TYPE} {r : Bool}
    {w : List Loc} (h : CircularBuffer_Peek_writes cb d = .ok (r, cb1, d1, w)) :
    cb1 = cb ∧ (w = [] ∨ w = [Loc.data]) := by
  unfold CircularBuffer_Peek_writes at h
  split at h
  · simp only [Except.ok.injEq, Prod.mk.injEq] at h
    obtain ⟨_, rfl, _, rfl⟩ := h
    simp
  · cases hr : readSlot cb.buffer cb.tail with
    | error f => simp [hr] at h
    | ok v =>
      simp only [hr, Except.ok.injEq, Prod.mk.injEq] at h
      obtain ⟨_, rfl, _, rfl⟩ := h
      simp

/-- Every way in which `Put` returns is one in which `CircularBuffer_Put_writes` returns. -/
theorem put_writes_of_put {cb cb1 : CircularBuffer} {x : BUFFER_TYPE} {st : Int}
    (h : CircularBuffer_Put cb x = .ok (st, cb1)) :
    ∃ w, CircularBuffer_Put_writes cb x = .ok (st, cb1, w) := by
  rw [← Put_writes_erase] at h
  cases hw : CircularBuffer_Put_writes cb x with
  | error f => simp [hw, Except.map] at h
  | ok r =>
    obtain ⟨a, b, w⟩ := r
    simp only [hw, Except.map, Except.ok.injEq, Prod.mk.injEq] at h
    obtain ⟨rfl, rfl⟩ := h
    exact ⟨w, rfl⟩

/-- Every way in which `Get` returns is one in which `CircularBuffer_Get_writes` returns. -/
theorem get_writes_of_get {cb cb1 : CircularBuffer} {d d1 : BUFFER_TYPE} {st : Int}
    (h : CircularBuffer_Get cb d = .ok (st, cb1, d1)) :
    ∃ w, CircularBuffer_Get_writes cb d = .ok (st, cb1, d1, w) := by
  rw [← Get_writes_erase] at h
  cases hw : CircularBuffer_Get_writes cb d with
  | error f => simp [hw, Except.map] at h
  | ok r =>
    obtain ⟨a, b, c, w⟩ := r
    simp only [hw, Except.map, Except.ok.injEq, Prod.mk.injEq] at h
    obtain ⟨rfl, rfl, rfl⟩ := h
    exact ⟨w, rfl⟩

/-- Every way in which `Peek` returns is one in which `CircularBuffer_Peek_writes` returns. -/
theorem peek_writes_of_peek {cb cb1 : CircularBuffer} {d d1 : BUFFER_TYPE} {r : Bool}
    (h : CircularBuffer_Peek cb d = .ok (r, cb1, d1)) :
    ∃ w, CircularBuffer_Peek_writes cb d = .ok (r, cb1, d1, w) := by
  rw [← Peek_writes_erase] at h
  cases hw : CircularBuffer_Peek_writes cb d with
  | error f => simp [hw, Except.map] at h
  | ok q =>
    obtain ⟨a, b, c, w⟩ := q
    simp only [hw, Except.map, Except.ok.injEq, Prod.mk.injEq] at h
    obtain ⟨rfl, rfl, rfl⟩ := h
    exact ⟨w, rfl⟩

/-- On a capacity-1 buffer with overwrite, `Put` assigns `tail`, and the value
it assigns is the old one. -/
theorem scenario_capacity_one_put :
    CircularBuffer_Put_writes oneSlot 99 =
      .ok (BUFFER_OK, { oneSlot with buffer := some [99] }, [Loc.tail, Loc.slot 0, Loc.head]) :=
  rfl

/-! ## Capacity 1 -/

/-- No call changes the overwrite flag. -/
theorem step_overwrite {s s1 : CircularBuffer × BUFFER_TYPE} {o : Op}
    (h : step s o = .ok s1) : s1.1.overwrite = s.1.overwrite := by
  cases o with
  | put x =>
    simp only [step] at h
    cases hp : CircularBuffer_Put s.1 x with
    | error f => simp [hp] at h
    | ok r =>
      obtain ⟨st, cb1⟩ := r
      simp only [hp, Except.ok.injEq] at h
      obtain ⟨w, hw⟩ := put_writes_of_put hp
      rw [← h]
      exact (put_writes_cases hw).2.1
  | get =>
    simp only [step] at h
    cases hp : CircularBuffer_Get s.1 s.2 with
    | error f => simp [hp] at h
    | ok r =>
      obtain ⟨st, cb1, d1⟩ := r
      simp only [hp, Except.ok.injEq] at h
      obtain ⟨w, hw⟩ := get_writes_of_get hp
      rw [← h]
      exact (get_writes_cases hw).2.2.1
  | peek =>
    simp only [step] at h
    cases hp : CircularBuffer_Peek s.1 s.2 with
    | error f => simp [hp] at h
    | ok r =>
      obtain ⟨st, cb1, d1⟩ := r
      simp only [hp, Except.ok.injEq] at h
      obtain ⟨w, hw⟩ := peek_writes_of_peek hp
      rw [← h, (peek_writes_cases hw).1]

/-- No sequence of calls changes the overwrite flag. -/
theorem run_overwrite (ops : List Op) : ∀ {s s1 : CircularBuffer × BUFFER_TYPE},
    run s ops = .ok s1 → s1.1.overwrite = s.1.overwrite := by
  induction ops with
  | nil =>
    intro s s1 h
    simp only [run, Except.ok.injEq] at h
    rw [h]
  | cons o os ih =>
    intro s s1 h
    simp only [run] at h
    cases hs : step s o with
    | error f => simp [hs] at h
    | ok s2 =>
      simp only [hs] at h
      rw [ih h, step_overwrite hs]

/-- C19 (capacity 1 stores nothing). For a buffer produced by a successful
`CircularBuffer_Init` with `size` 1 and every finite sequence of
`Put`/`Get`/`Peek` calls on it: the calls all return, and afterwards
`head = tail = 0`, `IsEmpty` and `IsFull` are both true and
`CircularBuffer_Size` is 0; with overwrite disabled every `Put` then returns
`BUFFER_FULL` (changing nothing); with overwrite enabled every `Put` then
returns `BUFFER_OK`, and the `Get` that follows it returns `BUFFER_EMPTY`. -/
theorem C19_capacity_one (malloc : Nat → Option (List BUFFER_TYPE)) (cb0 : CircularBuffer)
    (ow : Bool) (d : BUFFER_TYPE) (ops : List Op) (hm : MallocOk malloc)
    (hinit : (CircularBuffer_Init malloc cb0 1 ow).1 = BUFFER_OK) :
    ∃ cb d1, run ((CircularBuffer_Init malloc cb0 1 ow).2, d) ops = .ok (cb, d1) ∧
      cb.head = 0 ∧ cb.tail = 0 ∧
      CircularBuffer_IsEmpty cb = true ∧ CircularBuffer_IsFull cb = .ok true ∧
      CircularBuffer_Size cb = 0 ∧
      (ow = false → ∀ x, CircularBuffer_Put cb x = .ok (BUFFER_FULL, cb)) ∧
      (ow = true → ∀ x, ∃ cb1, CircularBuffer_Put cb x = .ok (BUFFER_OK, cb1) ∧
        ∀ d2, CircularBuffer_Get cb1 d2 = .ok (BUFFER_EMPTY, cb1, d2)) := by
  have h1M : 1 < SIZE_T_MOD := by unfold SIZE_T_MOD; norm_num
  obtain ⟨hA, hsz, hh, ht, how⟩ := init_ok cb0 ow hm h1M hinit
  have hR : InRange (CircularBuffer_Init malloc cb0 1 ow).2 := by
    unfold InRange; rw [hh, ht, hsz]; omega
  obtain ⟨cb, d1, hrun, hA1, hR1, hs1⟩ := run_wf ops d hA hR
  have how1 : cb.overwrite = ow := by
    have := run_overwrite ops hrun
    simpa [how] using this
  rw [hsz] at hs1
  have hh1 : cb.head = 0 := by have := hR1.1; omega
  have ht1 : cb.tail = 0 := by have := hR1.2; omega
  obtain ⟨blk, hb, hl⟩ := allocated_block hA1
  have hfull : (cb.head + 1) % cb.size = cb.tail := by rw [hh1, ht1, hs1]
  refine ⟨cb, d1, hrun, hh1, ht1, ?_, ?_, ?_, ?_, ?_⟩
  · simp [CircularBuffer_IsEmpty, hh1, ht1]
  · rw [isFull_eval hA1.1 hR1.1]
    simp [hfull]
  · rw [size_val hA1.1 hR1, hh1, ht1]
    simp
  · intro ho x
    rw [put_eval x hA1.1 hb hl hR1, if_pos hfull, if_neg (by rw [how1, ho]; simp)]
  · intro ho x
    rw [put_eval x hA1.1 hb hl hR1, if_pos hfull, if_pos (by rw [how1, ho])]
    refine ⟨_, rfl, ?_⟩
    intro d2
    simp [CircularBuffer_Get, hh1, ht1, hs1]

/-- Witness of C19: a capacity-1 buffer with overwrite, two `Put` calls around a `Get`. -/
theorem C19_capacity_one_witness :
    (MallocOk zeroMalloc ∧ (CircularBuffer_Init zeroMalloc rawBuffer 1 true).1 = BUFFER_OK) ∧
    ∃ cb d1,
      run ((CircularBuffer_Init zeroMalloc rawBuffer 1 true).2, 0)
        [Op.put 1, Op.get, Op.put 2, Op.peek] = .ok (cb, d1) ∧
      cb.head = 0 ∧ cb.tail = 0 ∧
      CircularBuffer_IsEmpty cb = true ∧ CircularBuffer_IsFull cb = .ok true ∧
      CircularBuffer_Size cb = 0 ∧
      (true = false → ∀ x, CircularBuffer_Put cb x = .ok (BUFFER_FULL, cb)) ∧
      (true = true → ∀ x, ∃ cb1, CircularBuffer_Put cb x = .ok (BUFFER_OK, cb1) ∧
        ∀ d2, CircularBuffer_Get cb1 d2 = .ok (BUFFER_EMPTY, cb1, d2)) :=
  ⟨⟨zeroMalloc_ok, rfl⟩,
    C19_capacity_one zeroMalloc rawBuffer true 0 [Op.put 1, Op.get, Op.put 2, Op.peek]
      zeroMalloc_ok rfl⟩

end Ring
